import Mathlib

/-
Verification development for gpt_export.py, a script that exports ChatGPT
conversation JSON to Markdown files.

The Python source is shallowly embedded: every pure fragment of the script
becomes a Lean function on lists of characters and natural numbers, stateful
fragments (the process-wide media log) thread the log explicitly, and
fragments that can raise return Except values.  Character-level operations
(str.lower, str.isalnum, str.strip) are embedded in their ASCII fragment,
which covers every string the claims quantify over; the Unicode case
mappings of CPython are outside the scope of this embedding and are noted
at each definition they would touch.

Layout: definitions first, then supporting lemmas, then one theorem per
claim (with witnesses and counterexamples where required).
-/

set_option maxRecDepth 16000

/-! Character helpers (ASCII fragments of the CPython string methods). -/

/-- ASCII fragment of the CPython whitespace test used by str.strip:
space, tab, newline, vertical tab, form feed, carriage return. -/
def pyIsSpace (c : Char) : Bool :=
  c.toNat = 32 || c.toNat = 9 || c.toNat = 10 || c.toNat = 11 || c.toNat = 12 || c.toNat = 13

/-- Python str.strip on a list of characters: drop whitespace from both ends. -/
def pyStripL (cs : List Char) : List Char :=
  ((cs.dropWhile pyIsSpace).reverse.dropWhile pyIsSpace).reverse

/-- Python str.strip on a string. -/
def pyStrip (s : String) : String := String.mk (pyStripL s.data)

/-- ASCII fragment of Python str.lower, character by character. -/
def pyLowerChar (c : Char) : Char :=
  if 65 ≤ c.toNat ∧ c.toNat ≤ 90 then Char.ofNat (c.toNat + 32) else c

/-- ASCII fragment of Python str.isalnum, character by character. -/
def pyIsAlnum (c : Char) : Bool :=
  (97 ≤ c.toNat && c.toNat ≤ 122) || (65 ≤ c.toNat && c.toNat ≤ 90)
    || (48 ≤ c.toNat && c.toNat ≤ 57)

/-- One character of the slugify comprehension:
keep alphanumerics and the characters "-" and "_", replace the rest by "_". -/
def slugChar (c : Char) : Char :=
  if pyIsAlnum c || c = '-' || c = '_' then c else '_'

/-- gpt_export.py line 34:
"".join(c if c.isalnum() or c in "-_" else "_" for c in text.strip().lower()) -/
def slugify (text : String) : String :=
  String.mk (((pyStripL text.data).map pyLowerChar).map slugChar)

/-! Decimal rendering (Python str on a nonnegative int), fuel-based so that
it reduces in the kernel.  The fuel argument only bounds the recursion
depth; toDec supplies enough fuel for any input. -/

def toDecAux : Nat → Nat → List Char → List Char
  | 0, _, acc => acc
  | fuel + 1, n, acc =>
    if n < 10 then Char.ofNat (48 + n) :: acc
    else toDecAux fuel (n / 10) (Char.ofNat (48 + n % 10) :: acc)

/-- Decimal digits of a natural number, most significant first, no padding. -/
def toDec (n : Nat) : List Char := toDecAux (n + 1) n []

/-- Decimal rendering as a string (Python str(n) for a nonnegative int n). -/
def toDecStr (n : Nat) : String := String.mk (toDec n)

/-- Python format specifier 02d: zero-pad to width 2 (wider numbers untouched). -/
def pad2 (n : Nat) : List Char :=
  if n < 10 then '0' :: toDec n else toDec n

/-- Python format specifier 03d: zero-pad to width 3 (wider numbers untouched). -/
def pad3 (n : Nat) : List Char :=
  if n < 10 then '0' :: '0' :: toDec n
  else if n < 100 then '0' :: toDec n
  else toDec n

/-! SHA-1 (RFC 3174), as used by hashlib.sha1 in make_slug_or_hash.
Words are naturals reduced modulo 2 to the 32, messages are lists of bytes
(naturals below 256). -/

/-- Left rotation of a 32-bit word. -/
def rotl32 (n x : Nat) : Nat := ((x <<< n) ||| (x >>> (32 - n))) % 4294967296

/-- SHA-1 padding: append the byte 0x80, zero bytes to 56 mod 64, then the
message bit length as eight big-endian bytes. -/
def sha1Pad (msg : List Nat) : List Nat :=
  let len := msg.length
  let k := (64 - ((len + 9) % 64)) % 64
  msg ++ 128 :: List.replicate k 0 ++
    [(8 * len) >>> 56 % 256, (8 * len) >>> 48 % 256, (8 * len) >>> 40 % 256,
     (8 * len) >>> 32 % 256, (8 * len) >>> 24 % 256, (8 * len) >>> 16 % 256,
     (8 * len) >>> 8 % 256, (8 * len) % 256]

/-- Split a list into consecutive chunks of n elements, the slicing loop
[l[i:i+n] for i in range(0, len(l), n)]; the fuel argument only bounds
recursion depth (fuel at least the list length is enough). -/
def chunksAux {α : Type} (n : Nat) : Nat → List α → List (List α)
  | 0, _ => []
  | _, [] => []
  | fuel + 1, l => (l.take n) :: chunksAux n fuel (l.drop n)

/-- Consecutive chunks of n elements (n positive), last chunk possibly
shorter. -/
def chunksOf {α : Type} (n : Nat) (l : List α) : List (List α) :=
  chunksAux n l.length l

/-- Big-endian 32-bit words from a list of bytes. -/
def wordsOf : List Nat → List Nat
  | b0 :: b1 :: b2 :: b3 :: rest => (b0 <<< 24 + b1 <<< 16 + b2 <<< 8 + b3) :: wordsOf rest
  | _ => []

/-- Message schedule: rws is the reversed list of words built so far;
extend by k more words, each the rotation of the xor of the words 3, 8,
14 and 16 positions back. -/
def sha1Extend (rws : List Nat) : Nat → List Nat
  | 0 => rws.reverse
  | k + 1 =>
    sha1Extend
      (rotl32 1 (((rws.getD 2 0) ^^^ (rws.getD 7 0)) ^^^ ((rws.getD 13 0) ^^^ (rws.getD 15 0)))
        :: rws) k

/-- The SHA-1 round function for round t. -/
def sha1F (t b c d : Nat) : Nat :=
  if t < 20 then (b &&& c) ||| ((4294967295 - b) &&& d)
  else if t < 40 then (b ^^^ c) ^^^ d
  else if t < 60 then (b &&& c) ||| (b &&& d) ||| (c &&& d)
  else (b ^^^ c) ^^^ d

/-- The SHA-1 round constant for round t. -/
def sha1K (t : Nat) : Nat :=
  if t < 20 then 1518500249 else if t < 40 then 1859775393
  else if t < 60 then 2400959708 else 3395469782

/-- One SHA-1 round: update the five-word state with round index and word. -/
def sha1Round (st : Nat × Nat × Nat × Nat × Nat) (tw : Nat × Nat) :
    Nat × Nat × Nat × Nat × Nat :=
  let (a, b, c, d, e) := st
  let (t, w) := tw
  ((rotl32 5 a + sha1F t b c d + e + sha1K t + w) % 4294967296, a, rotl32 30 b, c, d)

/-- Process one 64-byte block. -/
def sha1Block (h : Nat × Nat × Nat × Nat × Nat) (block : List Nat) :
    Nat × Nat × Nat × Nat × Nat :=
  let ws := sha1Extend (wordsOf block).reverse 64
  let (h0, h1, h2, h3, h4) := h
  let (a, b, c, d, e) := ((List.range 80).zip ws).foldl sha1Round h
  ((h0 + a) % 4294967296, (h1 + b) % 4294967296, (h2 + c) % 4294967296,
   (h3 + d) % 4294967296, (h4 + e) % 4294967296)

/-- The 20-byte SHA-1 digest of a byte list. -/
def sha1Digest (msg : List Nat) : List Nat :=
  let padded := sha1Pad msg
  let (h0, h1, h2, h3, h4) :=
    (chunksAux 64 padded.length padded).foldl sha1Block
      (1732584193, 4023233417, 2562383102, 271733878, 3285377520)
  [h0 >>> 24 % 256, h0 >>> 16 % 256, h0 >>> 8 % 256, h0 % 256,
   h1 >>> 24 % 256, h1 >>> 16 % 256, h1 >>> 8 % 256, h1 % 256,
   h2 >>> 24 % 256, h2 >>> 16 % 256, h2 >>> 8 % 256, h2 % 256,
   h3 >>> 24 % 256, h3 >>> 16 % 256, h3 >>> 8 % 256, h3 % 256,
   h4 >>> 24 % 256, h4 >>> 16 % 256, h4 >>> 8 % 256, h4 % 256]

/-- Lowercase hexadecimal digit. -/
def hexChar (n : Nat) : Char := if n < 10 then Char.ofNat (48 + n) else Char.ofNat (87 + n)

/-- Lowercase hexadecimal rendering of a byte list (hashlib hexdigest). -/
def hexOfBytes (bs : List Nat) : List Char :=
  bs.flatMap (fun b => [hexChar (b / 16), hexChar (b % 16)])

/-- UTF-8 bytes of one character (Python str.encode, one code point). -/
def utf8Char (c : Char) : List Nat :=
  let n := c.toNat
  if n < 128 then [n]
  else if n < 2048 then [192 + n / 64, 128 + n % 64]
  else if n < 65536 then [224 + n / 4096, 128 + n / 64 % 64, 128 + n % 64]
  else [240 + n / 262144, 128 + n / 4096 % 64, 128 + n / 64 % 64, 128 + n % 64]

/-- Python str.encode: UTF-8 bytes of a string. -/
def pyEncode (s : String) : List Nat := s.data.flatMap utf8Char

/-- The string formatted by the f-string in make_slug_or_hash:
the display timestamp, an underscore, the decimal thread index. -/
def hashInput (ts : String) (idx : Nat) : String := ts ++ "_" ++ toDecStr idx

/-- hashlib.sha1(f"-timestamp_index-".encode()).hexdigest()[:10]. -/
def hashSlug (ts : String) (idx : Nat) : String :=
  String.mk ((hexOfBytes (sha1Digest (pyEncode (hashInput ts idx)))).take 10)

/-- gpt_export.py lines 47 to 48:
slugify(title)[:50] if title else sha1(f"-ts_idx-".encode()).hexdigest()[:10].
Python truthiness of a string is nonemptiness, so the hash branch is taken
exactly when title is the empty string. -/
def make_slug_or_hash (title ts : String) (idx : Nat) : String :=
  if title = "" then hashSlug ts idx else (slugify title).take 50

/-! Timestamp formatter (gpt_export.py lines 36 to 45). -/

/-- The value handed to format_ts: a Python int, a Python str, or a value of
any other type.  CPython floats are not modeled; every claim about numeric
inputs is settled on the int fragment. -/
inductive TsVal where
  | int (n : Int)
  | str (s : String)
  | other
  deriving DecidableEq

/-- A parsed datetime as produced by datetime.fromisoformat, reduced to the
fields that the strftime format "%Y-%m-%d %H:%M" renders. -/
structure ParsedDT where
  year : Nat
  month : Nat
  day : Nat
  hour : Nat
  minute : Nat
  deriving DecidableEq

/-- Render the strftime format "%Y-%m-%d %H:%M".  The year is rendered
unpadded, as glibc strftime does for %Y; every claim evaluates it only on
years from 1000 to 9999, where the rendering has exactly four digits. -/
def renderDT (y m d hh mi : Nat) : String :=
  String.mk (toDec y ++ '-' :: pad2 m ++ '-' :: pad2 d ++ ' ' :: pad2 hh ++ ':' :: pad2 mi)

/-! The standard civil-from-days conversion (proleptic Gregorian calendar,
era arithmetic), which is what datetime.utcfromtimestamp computes for the
date part.  z counts days from 0000-03-01. -/

/-- 400-year era index. -/
def eraOf (z : Nat) : Nat := z / 146097

/-- Day of era. -/
def doeOf (z : Nat) : Nat := z % 146097

/-- Year of era. -/
def yoeOf (z : Nat) : Nat :=
  (doeOf z - doeOf z / 1460 + doeOf z / 36524 - doeOf z / 146096) / 365

/-- Day of year (March-based). -/
def doyOf (z : Nat) : Nat := doeOf z - (365 * yoeOf z + yoeOf z / 4 - yoeOf z / 100)

/-- March-based month index. -/
def mpOf (z : Nat) : Nat := (5 * doyOf z + 2) / 153

/-- Day of month, 1-based. -/
def dayOf (z : Nat) : Nat := doyOf z - (153 * mpOf z + 2) / 5 + 1

/-- Civil month, 1 to 12. -/
def monthOf (z : Nat) : Nat := if mpOf z < 10 then mpOf z + 3 else mpOf z - 9

/-- Civil year. -/
def yearOf (z : Nat) : Nat :=
  eraOf z * 400 + yoeOf z + (if monthOf z ≤ 2 then 1 else 0)

/-- datetime.utcfromtimestamp composed with strftime("%Y-%m-%d %H:%M") for
an in-range epoch second count. -/
def formatEpoch (n : Int) : String :=
  let z : Nat := (n.fdiv 86400 + 719468).toNat
  let secs : Nat := (n.emod 86400).toNat
  renderDT (yearOf z) (monthOf z) (dayOf z) (secs / 3600) (secs % 3600 / 60)

/-- Smallest epoch second datetime.utcfromtimestamp accepts
(0001-01-01 00:00:00, the datetime.min of CPython). -/
def minEpoch : Int := -62135596800

/-- Largest epoch second datetime.utcfromtimestamp accepts
(9999-12-31 23:59:59, within the datetime.max of CPython). -/
def maxEpoch : Int := 253402300799

/-- Replace every occurrence of the character Z (Python
ts.replace("Z", "+00:00") on the character level: since the pattern has one
character, occurrences cannot overlap and per-character replacement agrees
with str.replace). -/
def replaceZ (s : String) : String :=
  String.mk (s.data.flatMap (fun c => if c = 'Z' then "+00:00".data else [c]))

/-- gpt_export.py lines 36 to 45.  The try block around
datetime.utcfromtimestamp succeeds exactly on the representable range
[minEpoch, maxEpoch]; out-of-range values raise and the bare except returns
the sentinel.  datetime.fromisoformat is version-dependent library code, so
it enters the embedding as the parameter parseIso; all claims about the
string branch only constrain the parse-failure path, which is independent
of the parser. -/
def format_ts (parseIso : String → Option ParsedDT) : TsVal → String
  | .int n => if minEpoch ≤ n ∧ n ≤ maxEpoch then formatEpoch n else "unknown"
  | .str s =>
    match parseIso (replaceZ s) with
    | some dt => renderDT dt.year dt.month dt.day dt.hour dt.minute
    | none => "unknown"
  | .other => "unknown"

/-- Decimal digit test by code point. -/
def isDigitCode (c : Char) : Bool := 48 ≤ c.toNat && c.toNat ≤ 57

/-- Decidable test that a string has the shape YYYY-MM-DD HH:MM: sixteen
characters, digits at the digit positions, the separators "-", " " and ":"
in place. -/
def tsPattern (s : String) : Bool :=
  match s.data with
  | [y1, y2, y3, y4, '-', m1, m2, '-', d1, d2, ' ', h1, h2, ':', n1, n2] =>
    isDigitCode y1 && isDigitCode y2 && isDigitCode y3 && isDigitCode y4
      && isDigitCode m1 && isDigitCode m2 && isDigitCode d1 && isDigitCode d2
      && isDigitCode h1 && isDigitCode h2 && isDigitCode n1 && isDigitCode n2
  | _ => false

/-! Conversation writer routing and chunked output
(gpt_export.py lines 112 to 141 and 178 to 182). -/

/-- Configuration constant MAX_MESSAGES_PER_FILE (gpt_export.py line 16). -/
def MAX_MESSAGES_PER_FILE : Nat := 100

/-- One chunked part filename, f"-slug-_part_-partNo-_of_-total-.md" with
partNo already 1-based (gpt_export.py line 119). -/
def chunkedPartName (slug : String) (partNo total : Nat) : String :=
  slug ++ "_part_" ++ toDecStr partNo ++ "_of_" ++ toDecStr total ++ ".md"

/-- The chunk decomposition of write_chunked_convo (gpt_export.py line 115):
parts = [messages[i:i + MAX_MESSAGES_PER_FILE] for i in range(0, len(messages), MAX_MESSAGES_PER_FILE)]. -/
def chunkParts (msgs : List (String × String)) : List (List (String × String)) :=
  chunksOf MAX_MESSAGES_PER_FILE msgs

/-- The part filenames produced by write_chunked_convo, in loop order. -/
def chunkFilenames (slug : String) (msgs : List (String × String)) : List String :=
  (List.range (chunkParts msgs).length).map
    (fun i => chunkedPartName slug (i + 1) (chunkParts msgs).length)

/-- What the main loop produces for one thread: either one single document
or the list of chunked part files. -/
inductive ThreadOutput where
  | single (file : String)
  | chunked (files : List String)
  deriving DecidableEq

/-- The main loop routing (gpt_export.py lines 178 to 182):
write_chunked_convo when len(messages) > MAX_MESSAGES_PER_FILE,
write_single_convo (one file f"-slug-.md") otherwise. -/
def routeThread (slug : String) (msgs : List (String × String)) : ThreadOutput :=
  if MAX_MESSAGES_PER_FILE < msgs.length then ThreadOutput.chunked (chunkFilenames slug msgs)
  else ThreadOutput.single (slug ++ ".md")

/-! Content parts and message extraction
(gpt_export.py lines 59 to 74 and 163 to 175).
Parts come from JSON and are dynamically typed, so the embedding keeps the
shapes the code distinguishes: strings, dicts, and anything else; dict
values that the code reads are kept as string-or-not values so that the
AttributeError and TypeError paths of the interpreter stay visible. -/

/-- The exceptions the part-resolution code can raise. -/
inductive PyErr where
  | attributeError
  | typeError
  deriving DecidableEq

/-- A dict value that is either a Python str or some non-str value. -/
inductive PyStrVal where
  | str (s : String)
  | nonstr
  deriving DecidableEq

/-- The keys of a content part that process_parts reads; none means the key
is absent. -/
structure PartDict where
  content_type : Option PyStrVal
  asset_pointer : Option PyStrVal
  text : Option PyStrVal
  deriving DecidableEq

/-- One element of the parts list: a string, a dict, or any other value. -/
inductive PartVal where
  | str (s : String)
  | dict (d : PartDict)
  | other
  deriving DecidableEq

/-- Python str.startswith. -/
def pyStartsWith (pat s : String) : Bool := pat.data.isPrefixOf s.data

/-- Python str.split with a nonempty separator, fuel-based; acc holds the
current piece reversed. -/
def pySplitAux (sep : List Char) : Nat → List Char → List Char → List (List Char)
  | 0, acc, cs => [acc.reverse ++ cs]
  | _ + 1, acc, [] => [acc.reverse]
  | fuel + 1, acc, c :: t =>
    if sep.isPrefixOf (c :: t) then
      acc.reverse :: pySplitAux sep fuel [] ((c :: t).drop sep.length)
    else pySplitAux sep fuel (c :: acc) t

/-- Python s.split(sep) for nonempty sep. -/
def pySplit (sep s : String) : List String :=
  (pySplitAux sep.data s.data.length [] s.data).map String.mk

/-- Python "\n".join on a list whose items must all be str: the first
non-str item raises TypeError. -/
def joinChecked : List PyStrVal → Except PyErr (List String)
  | [] => Except.ok []
  | PyStrVal.str s :: rest => (joinChecked rest).map (fun l => s :: l)
  | PyStrVal.nonstr :: _ => Except.error PyErr.typeError

/-- Interleave newline characters (the separator of "\n".join). -/
def joinNL : List String → String
  | [] => ""
  | [s] => s
  | s :: rest => s ++ "\n" ++ joinNL rest

/-- The loop body of process_parts (gpt_export.py lines 61 to 73): walk the
parts, collecting result items and media log entries.  A dict whose
content_type equals "image_asset_pointer" but whose asset_pointer is a
non-str value raises AttributeError at asset.startswith. -/
def processPartsAux (title : String) :
    List PartVal → List PyStrVal → List String → Except PyErr (List PyStrVal × List String)
  | [], acc, log => Except.ok (acc, log)
  | PartVal.str s :: ps, acc, log => processPartsAux title ps (acc ++ [PyStrVal.str s]) log
  | PartVal.dict d :: ps, acc, log =>
    if d.content_type = some (PyStrVal.str "image_asset_pointer") then
      match d.asset_pointer.getD (PyStrVal.str "") with
      | PyStrVal.str asset =>
        if pyStartsWith "file-service://file-" asset then
          let name := "file-" ++ (pySplit "file-" asset).getLastD "" ++ ".png"
          processPartsAux title ps (acc ++ [PyStrVal.str ("![image](media/" ++ name ++ ")")])
            (log ++ [name ++ " — from '" ++ title ++ "'"])
        else processPartsAux title ps acc log
      | PyStrVal.nonstr => Except.error PyErr.attributeError
    else
      match d.text with
      | some t => processPartsAux title ps (acc ++ [t]) log
      | none => processPartsAux title ps acc log
  | PartVal.other :: ps, acc, log => processPartsAux title ps acc log

/-- gpt_export.py lines 59 to 74: resolve the content parts of one message,
return the stripped joined text and the extended media log.  The idx
parameter is accepted and unused, as in the source. -/
def process_parts (parts : List PartVal) (title : String) (idx : Nat) (log : List String) :
    Except PyErr (String × List String) :=
  match processPartsAux title parts [] log with
  | Except.error e => Except.error e
  | Except.ok (acc, log2) =>
    match joinChecked acc with
    | Except.error e => Except.error e
    | Except.ok strs => Except.ok (pyStrip (joinNL strs), log2)

/-- The author dict of a message; none for a missing role key. -/
structure PyAuthor where
  role : Option String
  deriving DecidableEq

/-- The content dict of a message; none for a missing parts key. -/
structure PyContent where
  parts : Option (List PartVal)
  deriving DecidableEq

/-- A message: optional author dict, optional content dict. -/
structure PyMessage where
  author : Option PyAuthor
  content : Option PyContent
  deriving DecidableEq

/-- A node of the thread mapping: an optional message.  none covers both an
absent "message" key and a null value (both falsy in the source check). -/
structure PyNode where
  message : Option PyMessage
  deriving DecidableEq

/-- msg.get("author", -empty-).get("role", "unknown") (gpt_export.py line 168). -/
def roleOf (msg : PyMessage) : String :=
  ((msg.author.getD { role := none }).role).getD "unknown"

/-- msg.get("content", -empty-).get("parts", []) (gpt_export.py line 171). -/
def partsOfMsg (msg : PyMessage) : List PartVal :=
  ((msg.content.getD { parts := none }).parts).getD []

/-- The message extraction loop (gpt_export.py lines 163 to 175) over the
values of the thread mapping in iteration order, threading the media log.
The includeSystem flag embeds the configuration constant
INCLUDE_SYSTEM_MESSAGES.  The exported-message counter of the source
(total_messages) increments exactly when a pair is appended, so it equals
the length of the returned list. -/
def extractLoop (includeSystem : Bool) (title : String) (idx : Nat) :
    List PyNode → List String → Except PyErr (List (String × String) × List String)
  | [], log => Except.ok ([], log)
  | node :: rest, log =>
    match node.message with
    | none => extractLoop includeSystem title idx rest log
    | some msg =>
      if roleOf msg = "system" ∧ includeSystem = false then
        extractLoop includeSystem title idx rest log
      else
        match process_parts (partsOfMsg msg) title idx log with
        | Except.error e => Except.error e
        | Except.ok (content, log2) =>
          match extractLoop includeSystem title idx rest log2 with
          | Except.error e => Except.error e
          | Except.ok (msgs, log3) =>
            if content = "" then Except.ok (msgs, log3)
            else Except.ok ((roleOf msg, content) :: msgs, log3)

/-! Media reference resolution (gpt_export.py lines 50 to 57). -/

/-- The fixed prefix of the image URL regex of gpt_export.py line 51. -/
def urlPfx : List Char := "https://files.oaiusercontent.com/".data

/-- The character class of the regex: word characters (ASCII fragment of
backslash-w), hyphen, slash. -/
def isUrlChar (c : Char) : Bool := pyIsAlnum c || c = '_' || c = '-' || c = '/'

/-- Try the regex at the current position: the literal prefix, a maximal
nonempty run of class characters (the greedy plus; a dot cannot occur in
the run, so no backtracking is possible), then the literal ".png".
Returns the matched text and the remainder after the match. -/
def findMatchAt (cs : List Char) : Option (List Char × List Char) :=
  if urlPfx.isPrefixOf cs then
    let rest := cs.drop urlPfx.length
    let run := rest.takeWhile isUrlChar
    if run ≠ [] ∧ ".png".data.isPrefixOf (rest.drop run.length) then
      some (urlPfx ++ run ++ ".png".data, (rest.drop run.length).drop 4)
    else none
  else none

/-- re.findall scanning: try the pattern at each position, consume matches,
advance one character on failure; fuel-based. -/
def findallAux : Nat → List Char → List (List Char)
  | 0, _ => []
  | _ + 1, [] => []
  | fuel + 1, c :: t =>
    match findMatchAt (c :: t) with
    | some (m, rest) => m :: findallAux fuel rest
    | none => findallAux fuel t

/-- re.findall of the image URL regex over a text. -/
def pyFindallUrls (cs : List Char) : List (List Char) := findallAux cs.length cs

/-- Python str.replace: replace every non-overlapping occurrence of sub
(nonempty), left to right; fuel-based. -/
def replaceAux (sub repl : List Char) : Nat → List Char → List Char
  | 0, cs => cs
  | _ + 1, [] => []
  | fuel + 1, c :: t =>
    if sub.isPrefixOf (c :: t) then repl ++ replaceAux sub repl fuel ((c :: t).drop sub.length)
    else c :: replaceAux sub repl fuel t

/-- Python content.replace(sub, repl) for nonempty sub. -/
def pyReplace (cs sub repl : List Char) : List Char := replaceAux sub repl cs.length cs

/-- f"{slugify(title) or 'image'}": Python or on strings falls back on the
second operand when the first is empty. -/
def slugOrImage (title : String) : String :=
  if slugify title = "" then "image" else slugify title

/-- f"{slugify(title) or 'image'}_{idx:03}_{count:02}.png" (gpt_export.py line 53). -/
def baseName (title : String) (idx count : Nat) : String :=
  slugOrImage title ++ "_" ++ String.mk (pad3 idx) ++ "_" ++ String.mk (pad2 count) ++ ".png"

/-- The enumerate(image_urls, 1) loop of sanitize_and_log_images:
replace the URL everywhere, append the inline image line, append the media
log entry, with the 1-based counter. -/
def sanitizeLoop (title : String) (idx : Nat) :
    List (List Char) → Nat → List Char → List String → List Char × List String
  | [], _, content, log => (content, log)
  | url :: urls, count, content, log =>
    let base := baseName title idx count
    sanitizeLoop title idx urls (count + 1)
      (pyReplace content url ("media/" ++ base).data ++ ("\n\n![image](media/" ++ base ++ ")").data)
      (log ++ [base ++ " — from '" ++ title ++ "'"])

/-- gpt_export.py lines 50 to 57: find all image URLs, then run the rewrite
loop; returns the new text and the extended media log. -/
def sanitize_and_log_images (content title : String) (idx : Nat) (log : List String) :
    String × List String :=
  let result := sanitizeLoop title idx (pyFindallUrls content.data) 1 content.data log
  (String.mk result.1, result.2)

/-- A well-formed image URL as matched by the regex: the fixed prefix, a
nonempty run of class characters, the ".png" suffix.  Used to quantify the
media-resolution claims over all matchable URLs. -/
def mkUrl (body : List Char) : List Char := urlPfx ++ body ++ ".png".data

/-! Manual-edit skip check (gpt_export.py lines 76 to 87). -/

/-- What the filesystem offers at the target path: no file, a file whose
read raises (the except path), or readable content. -/
inductive FileState where
  | absent
  | unreadable
  | content (s : String)

/-- The opening delimiter of the regex "^---\n(.*?)\n---": a line that is
exactly three hyphens. -/
def openDelim : List Char := "---\n".data

/-- The closing delimiter: a newline followed by three hyphens (the rest of
that line is unconstrained). -/
def closeDelim : List Char := "\n---".data

/-- Find the first occurrence of the closing delimiter; returns the
characters before it (the non-greedy group (.*?) under DOTALL). -/
def findClose : List Char → Option (List Char)
  | [] => none
  | c :: t => if closeDelim.isPrefixOf (c :: t) then some [] else (findClose t).map (fun g => c :: g)

/-- re.search of "^---\n(.*?)\n---" with DOTALL and MULTILINE: scan left to
right; at each line start where the opening delimiter matches, take the
group up to the first closing delimiter; otherwise advance one character.
The flag records whether the current position is a line start (MULTILINE ^). -/
def scanHeader : Bool → List Char → Option (List Char)
  | _, [] => none
  | lineStart, c :: t =>
    if lineStart ∧ openDelim.isPrefixOf (c :: t) then
      match findClose ((c :: t).drop 4) with
      | some g => some g
      | none => scanHeader (c = '\n') t
    else scanHeader (c = '\n') t

/-- Python substring membership (the in operator on str). -/
def subIn (needle : List Char) : List Char → Bool
  | [] => needle.isPrefixOf []
  | c :: t => needle.isPrefixOf (c :: t) || subIn needle t

/-- Configuration constant MANUAL_EDIT_KEY (gpt_export.py line 18). -/
def MANUAL_EDIT_KEY : String := "manual_edit"

/-- gpt_export.py lines 76 to 87: skip when the file exists, reads without
error, the header regex matches, and the group contains the key and then
the literal "manual_edit: true"; every other path returns False. -/
def should_skip_file : FileState → Bool
  | FileState.absent => false
  | FileState.unreadable => false
  | FileState.content s =>
    match scanHeader true s.data with
    | some g =>
      if subIn MANUAL_EDIT_KEY.data g then subIn (MANUAL_EDIT_KEY ++ ": true").data g
      else false
    | none => false

/-! Declarative description of the header regex match, used to state the
skip-check claim against an independent formulation. -/

/-- pre ends at a line start: it is empty or ends with a newline. -/
def LineStartPre (pre : List Char) : Prop := pre = [] ∨ ∃ q, pre = q ++ ['\n']

/-- Relative version for the scanner invariant: the consumed prefix pre ends
at a line start, where the flag ls tells whether the scan began at one. -/
def LSP (ls : Bool) (pre : List Char) : Prop :=
  (pre = [] ∧ ls = true) ∨ ∃ q, pre = q ++ ['\n']

/-- cs contains an occurrence of the delimited block with group g after pre. -/
def HeaderOcc (cs pre g : List Char) : Prop :=
  ∃ post, cs = pre ++ openDelim ++ g ++ closeDelim ++ post

/-- g is the group of the match the regex engine selects: a line-start
occurrence, leftmost among line-start occurrences, with the shortest group
at that position (non-greedy). -/
def FirstHeaderGroup (cs g : List Char) : Prop :=
  ∃ pre, HeaderOcc cs pre g ∧ LineStartPre pre ∧
    (∀ pre2 g2, HeaderOcc cs pre2 g2 → LineStartPre pre2 → pre.length ≤ pre2.length) ∧
    (∀ g2, HeaderOcc cs pre g2 → g.length ≤ g2.length)

/-! Supporting lemmas. -/

lemma charOfNat_toNat {n : Nat} (h : n < 55296) : (Char.ofNat n).toNat = n := by
  unfold Char.ofNat
  split
  · rfl
  · rename_i h2
    exact absurd (Or.inl h) h2

lemma mapSelf {α : Type} {l : List α} {f : α → α} (h : ∀ x ∈ l, f x = x) : l.map f = l := by
  induction l with
  | nil => rfl
  | cons a t ih =>
    simp only [List.map_cons, h a (List.mem_cons_self a t)]
    rw [ih (fun x hx => h x (List.mem_cons_of_mem a hx))]

lemma pyLowerChar_idem (c : Char) : pyLowerChar (pyLowerChar c) = pyLowerChar c := by
  unfold pyLowerChar
  by_cases h : 65 ≤ c.toNat ∧ c.toNat ≤ 90
  · rw [if_pos h, if_neg]
    rw [charOfNat_toNat (by omega)]
    omega
  · rw [if_neg h, if_neg h]

lemma slugify_chars (t : String) :
    ∀ d ∈ (slugify t).data, (pyIsAlnum d || d = '-' || d = '_') = true ∧ pyLowerChar d = d := by
  intro d hd
  have hd2 : d ∈ ((pyStripL t.data).map pyLowerChar).map slugChar := hd
  rcases List.mem_map.mp hd2 with ⟨c, hc, hcd⟩
  by_cases hk : (pyIsAlnum c || c = '-' || c = '_') = true
  · have : d = c := by rw [← hcd, slugChar, if_pos hk]
    subst this
    refine ⟨hk, ?_⟩
    rcases List.mem_map.mp hc with ⟨c0, _, hc0⟩
    rw [← hc0, pyLowerChar_idem]
  · have : d = '_' := by rw [← hcd, slugChar, if_neg hk]
    subst this
    exact ⟨by decide, by decide⟩

lemma slug_no_space {d : Char} (h : (pyIsAlnum d || d = '-' || d = '_') = true) :
    pyIsSpace d = false := by
  have hn : (97 ≤ d.toNat ∧ d.toNat ≤ 122) ∨ (65 ≤ d.toNat ∧ d.toNat ≤ 90)
      ∨ (48 ≤ d.toNat ∧ d.toNat ≤ 57) ∨ d.toNat = 45 ∨ d.toNat = 95 := by
    simp only [pyIsAlnum, Bool.or_eq_true, Bool.and_eq_true, decide_eq_true_eq] at h
    rcases h with (((⟨h1, h2⟩ | ⟨h1, h2⟩) | ⟨h1, h2⟩) | h) | h
    · exact Or.inl ⟨h1, h2⟩
    · exact Or.inr (Or.inl ⟨h1, h2⟩)
    · exact Or.inr (Or.inr (Or.inl ⟨h1, h2⟩))
    · subst h; right; right; right; left; rfl
    · subst h; right; right; right; right; rfl
  simp only [pyIsSpace, Bool.or_eq_false_iff, decide_eq_false_iff_not]
  omega

lemma pyStripL_id {l : List Char} (h : ∀ c ∈ l, pyIsSpace c = false) : pyStripL l = l := by
  have h1 : l.dropWhile pyIsSpace = l := by
    cases l with
    | nil => rfl
    | cons c t => rw [List.dropWhile_cons, h c (List.mem_cons_self c t)]; simp
  have h2 : l.reverse.dropWhile pyIsSpace = l.reverse := by
    cases hr : l.reverse with
    | nil => rfl
    | cons c t =>
      rw [List.dropWhile_cons, h c ?_]
      · simp
      · rw [← List.mem_reverse, hr]; exact List.mem_cons_self c t
  rw [pyStripL, h1, h2, List.reverse_reverse]

/-- Claim C8: for every string, normalizing twice equals normalizing once,
and the normalized result contains only alphanumerics, hyphens and
underscores. -/
theorem claim_C8 (t : String) :
    slugify (slugify t) = slugify t ∧
    ∀ c ∈ (slugify t).data, pyIsAlnum c = true ∨ c = '-' ∨ c = '_' := by
  have hch := slugify_chars t
  constructor
  · have hstrip : pyStripL (slugify t).data = (slugify t).data :=
      pyStripL_id (fun c hc => slug_no_space (hch c hc).1)
    have hlower : ((slugify t).data).map pyLowerChar = (slugify t).data :=
      mapSelf (fun c hc => (hch c hc).2)
    have hslug : ((slugify t).data).map slugChar = (slugify t).data :=
      mapSelf (fun c hc => by rw [slugChar, if_pos (hch c hc).1])
    have : slugify (slugify t) = String.mk ((((slugify t).data).map pyLowerChar).map slugChar) := by
      rw [slugify, hstrip]
    rw [this, hlower, hslug]
  · intro c hc
    have := (hch c hc).1
    simp only [Bool.or_eq_true, decide_eq_true_eq] at this
    tauto

/-! Chunk lemmas (fuel irrelevance, defining equation, shape facts). -/

lemma chunksAux_nil {α : Type} (n fuel : Nat) : chunksAux (α := α) n fuel [] = [] := by
  cases fuel <;> rfl

lemma chunksAux_fuel {α : Type} {n : Nat} (hn : 0 < n) :
    ∀ f1 f2 (l : List α), l.length ≤ f1 → l.length ≤ f2 →
      chunksAux n f1 l = chunksAux n f2 l := by
  intro f1
  induction f1 with
  | zero =>
    intro f2 l h1 _
    have : l = [] := List.length_eq_zero.mp (Nat.le_zero.mp h1)
    subst this
    rw [chunksAux_nil, chunksAux_nil]
  | succ f ih =>
    intro f2 l h1 h2
    cases l with
    | nil => rw [chunksAux_nil, chunksAux_nil]
    | cons c t =>
      cases f2 with
      | zero => simp at h2
      | succ g =>
        show (c :: t).take n :: chunksAux n f ((c :: t).drop n)
            = (c :: t).take n :: chunksAux n g ((c :: t).drop n)
        have hlen : ((c :: t).drop n).length ≤ f := by
          simp only [List.length_drop, List.length_cons]
          simp only [List.length_cons] at h1
          omega
        have hlen2 : ((c :: t).drop n).length ≤ g := by
          simp only [List.length_drop, List.length_cons]
          simp only [List.length_cons] at h2
          omega
        rw [ih _ _ hlen hlen2]

lemma chunksOf_nil {α : Type} (n : Nat) : chunksOf n ([] : List α) = [] := rfl

lemma chunksOf_cons {α : Type} {n : Nat} (hn : 0 < n) (c : α) (t : List α) :
    chunksOf n (c :: t) = (c :: t).take n :: chunksOf n ((c :: t).drop n) := by
  have h1 : chunksOf n (c :: t) = (c :: t).take n :: chunksAux n t.length ((c :: t).drop n) := rfl
  rw [h1]
  congr 1
  apply chunksAux_fuel hn
  · simp only [List.length_drop, List.length_cons]; omega
  · exact Nat.le_refl _

lemma chunksOf_flatten {α : Type} {n : Nat} (hn : 0 < n) (l : List α) :
    (chunksOf n l).flatten = l := by
  have key : ∀ k (l : List α), l.length ≤ k → (chunksOf n l).flatten = l := by
    intro k
    induction k with
    | zero =>
      intro l h
      have : l = [] := List.length_eq_zero.mp (Nat.le_zero.mp h)
      subst this; rfl
    | succ k ih =>
      intro l h
      cases l with
      | nil => rfl
      | cons c t =>
        rw [chunksOf_cons hn, List.flatten_cons, ih ((c :: t).drop n) ?_, List.take_append_drop]
        simp only [List.length_drop, List.length_cons]
        simp only [List.length_cons] at h
        omega
  exact key l.length l (Nat.le_refl _)

lemma chunksOf_mem_len {α : Type} {n : Nat} (hn : 0 < n) (l : List α) :
    ∀ p ∈ chunksOf n l, p.length ≤ n := by
  have key : ∀ k (l : List α), l.length ≤ k → ∀ p ∈ chunksOf n l, p.length ≤ n := by
    intro k
    induction k with
    | zero =>
      intro l h p hp
      have : l = [] := List.length_eq_zero.mp (Nat.le_zero.mp h)
      subst this; simp [chunksOf_nil] at hp
    | succ k ih =>
      intro l h p hp
      cases l with
      | nil => simp [chunksOf_nil] at hp
      | cons c t =>
        rw [chunksOf_cons hn] at hp
        rcases List.mem_cons.mp hp with hp | hp
        · subst hp; rw [List.length_take]; omega
        · refine ih ((c :: t).drop n) ?_ p hp
          simp only [List.length_drop, List.length_cons]
          simp only [List.length_cons] at h
          omega
  exact key l.length l (Nat.le_refl _)

lemma chunksOf100_length (l : List (String × String)) :
    (chunksOf 100 l).length = (l.length + 99) / 100 := by
  have key : ∀ k (l : List (String × String)), l.length ≤ k →
      (chunksOf 100 l).length = (l.length + 99) / 100 := by
    intro k
    induction k with
    | zero =>
      intro l h
      have : l = [] := List.length_eq_zero.mp (Nat.le_zero.mp h)
      subst this; rfl
    | succ k ih =>
      intro l h
      cases l with
      | nil => rfl
      | cons c t =>
        rw [chunksOf_cons (by omega), List.length_cons,
          ih ((c :: t).drop 100) ?_]
        · simp only [List.length_drop, List.length_cons]
          simp only [List.length_cons] at h
          omega
        · simp only [List.length_drop, List.length_cons]
          simp only [List.length_cons] at h
          omega
  exact key l.length l (Nat.le_refl _)

lemma chunksOf100_getD (l : List (String × String)) :
    ∀ i, i + 1 < (chunksOf 100 l).length → ((chunksOf 100 l).getD i []).length = 100 := by
  have key : ∀ k (l : List (String × String)), l.length ≤ k →
      ∀ i, i + 1 < (chunksOf 100 l).length → ((chunksOf 100 l).getD i []).length = 100 := by
    intro k
    induction k with
    | zero =>
      intro l h i hi
      have : l = [] := List.length_eq_zero.mp (Nat.le_zero.mp h)
      subst this; simp [chunksOf_nil] at hi
    | succ k ih =>
      intro l h i hi
      cases l with
      | nil => simp [chunksOf_nil] at hi
      | cons c t =>
        rw [chunksOf_cons (by omega)] at hi ⊢
        cases i with
        | zero =>
          rw [List.getD_cons_zero, List.length_take]
          simp only [List.length_cons] at hi
          have hne : chunksOf 100 ((c :: t).drop 100) ≠ [] := by
            intro hc
            rw [hc] at hi
            simp at hi
          have hdrop : (c :: t).drop 100 ≠ [] := by
            intro hc
            rw [hc, chunksOf_nil] at hne
            exact hne rfl
          have : ((c :: t).drop 100).length ≠ 0 := fun hc => hdrop (List.length_eq_zero.mp hc)
          simp only [List.length_drop, List.length_cons] at this
          simp only [List.length_cons]
          omega
        | succ i =>
          rw [List.getD_cons_succ]
          refine ih ((c :: t).drop 100) ?_ i ?_
          · simp only [List.length_drop, List.length_cons]
            simp only [List.length_cons] at h
            omega
          · simp only [List.length_cons] at hi
            omega
  exact key l.length l (Nat.le_refl _)

lemma chunkFilenames_getD (slug : String) (msgs : List (String × String)) :
    ∀ i, i < (chunkParts msgs).length →
      (chunkFilenames slug msgs).getD i "" =
        chunkedPartName slug (i + 1) (chunkParts msgs).length := by
  intro i hi
  rw [chunkFilenames, List.getD_eq_getElem?_getD, List.getElem?_map,
    List.getElem?_range hi]
  rfl

/-- Claim C2: the main loop routes a thread with at most
MAX_MESSAGES_PER_FILE (100) extracted messages to exactly one single
document at the fixed slug-keyed path, routes a thread with strictly more
to chunked multi-part output, and in particular a count equal to the
threshold yields the single document. -/
theorem claim_C2 (slug : String) (msgs : List (String × String)) :
    (msgs.length ≤ MAX_MESSAGES_PER_FILE →
      routeThread slug msgs = ThreadOutput.single (slug ++ ".md")) ∧
    (MAX_MESSAGES_PER_FILE < msgs.length →
      routeThread slug msgs = ThreadOutput.chunked (chunkFilenames slug msgs)) ∧
    (msgs.length = MAX_MESSAGES_PER_FILE →
      routeThread slug msgs = ThreadOutput.single (slug ++ ".md")) := by
  refine ⟨fun h => ?_, fun h => ?_, fun h => ?_⟩
  · rw [routeThread, if_neg (by omega)]
  · rw [routeThread, if_pos h]
  · rw [routeThread, if_neg (by omega)]

/-- Claim C2 witness: a thread with exactly 100 messages is routed to the
single document. -/
theorem claim_C2_witness :
    routeThread "t" (List.replicate 100 ("user", "hi")) = ThreadOutput.single ("t" ++ ".md") :=
  (claim_C2 "t" (List.replicate 100 ("user", "hi"))).2.2 (by simp [MAX_MESSAGES_PER_FILE])

/-- Claim C7: for a message list longer than the threshold, the chunk
decomposition consists of consecutive groups whose concatenation is the
original list, each group has at most 100 elements, every group but the
last has exactly 100, there are at least two groups, the group count is
the ceiling of length over 100, and the part filenames carry the slug, the
1-based part index and the total count, contiguously from 1 to the total. -/
theorem claim_C7 (slug : String) (msgs : List (String × String))
    (h : MAX_MESSAGES_PER_FILE < msgs.length) :
    (chunkParts msgs).flatten = msgs ∧
    (∀ p ∈ chunkParts msgs, p.length ≤ MAX_MESSAGES_PER_FILE) ∧
    (∀ i, i + 1 < (chunkParts msgs).length →
      ((chunkParts msgs).getD i []).length = MAX_MESSAGES_PER_FILE) ∧
    2 ≤ (chunkParts msgs).length ∧
    (chunkParts msgs).length = (msgs.length + 99) / 100 ∧
    (chunkFilenames slug msgs).length = (chunkParts msgs).length ∧
    (∀ i, i < (chunkParts msgs).length →
      (chunkFilenames slug msgs).getD i "" =
        chunkedPartName slug (i + 1) (chunkParts msgs).length) := by
  have hlen : (chunkParts msgs).length = (msgs.length + 99) / 100 := chunksOf100_length msgs
  refine ⟨chunksOf_flatten (by simp [MAX_MESSAGES_PER_FILE]) msgs,
    chunksOf_mem_len (by simp [MAX_MESSAGES_PER_FILE]) msgs,
    by simpa [MAX_MESSAGES_PER_FILE] using chunksOf100_getD msgs,
    ?_, hlen, ?_, chunkFilenames_getD slug msgs⟩
  · rw [hlen]
    simp only [MAX_MESSAGES_PER_FILE] at h
    omega
  · rw [chunkFilenames, List.length_map, List.length_range]

/-- Claim C7 witness: a 101-message thread decomposes into chunks that
flatten back to the list, in exactly two parts, and the two filenames carry
part numbers 1 and 2 of 2. -/
theorem claim_C7_witness :
    (chunkParts (List.replicate 101 ("user", "hi"))).flatten = List.replicate 101 ("user", "hi") ∧
    (chunkParts (List.replicate 101 ("user", "hi"))).length = 2 ∧
    (chunkFilenames "t" (List.replicate 101 ("user", "hi"))).getD 0 "" = "t_part_1_of_2.md" ∧
    (chunkFilenames "t" (List.replicate 101 ("user", "hi"))).getD 1 "" = "t_part_2_of_2.md" := by
  have h := claim_C7 "t" (List.replicate 101 ("user", "hi")) (by simp [MAX_MESSAGES_PER_FILE])
  have hlen : (chunkParts (List.replicate 101 ("user", "hi"))).length = 2 := by
    rw [h.2.2.2.2.1]
    simp
  refine ⟨h.1, hlen, ?_, ?_⟩
  · rw [h.2.2.2.2.2.2 0 (by rw [hlen]; omega), hlen]
    decide
  · rw [h.2.2.2.2.2.2 1 (by rw [hlen]; omega), hlen]
    decide

/-! Decimal rendering lemmas (for the hash input and the year field). -/

lemma toDecAux_acc : ∀ fuel n acc, toDecAux fuel n acc = toDecAux fuel n [] ++ acc := by
  intro fuel
  induction fuel with
  | zero => intro n acc; rfl
  | succ f ih =>
    intro n acc
    by_cases h : n < 10
    · show (if n < 10 then _ else _) = (if n < 10 then _ else _) ++ acc
      rw [if_pos h, if_pos h]
      rfl
    · show (if n < 10 then _ else _) = (if n < 10 then _ else _) ++ acc
      rw [if_neg h, if_neg h, ih (n / 10) (Char.ofNat (48 + n % 10) :: acc),
        ih (n / 10) [Char.ofNat (48 + n % 10)], List.append_assoc]
      rfl

lemma toDecAux_fuel : ∀ f1 f2 n acc, n < f1 → n < f2 →
    toDecAux f1 n acc = toDecAux f2 n acc := by
  intro f1
  induction f1 with
  | zero => intro f2 n acc h1 _; omega
  | succ f ih =>
    intro f2 n acc h1 h2
    cases f2 with
    | zero => omega
    | succ g =>
      by_cases h : n < 10
      · show (if n < 10 then _ else _) = (if n < 10 then _ else _)
        rw [if_pos h, if_pos h]
      · show (if n < 10 then _ else _) = (if n < 10 then _ else _)
        rw [if_neg h, if_neg h]
        have hd : n / 10 < n := Nat.div_lt_self (by omega) (by omega)
        exact ih g (n / 10) _ (by omega) (by omega)

lemma toDec_lt10 {n : Nat} (h : n < 10) : toDec n = [Char.ofNat (48 + n)] := by
  rw [toDec]
  show (if n < 10 then _ else _) = _
  rw [if_pos h]

lemma toDec_step {n : Nat} (h : 10 ≤ n) :
    toDec n = toDec (n / 10) ++ [Char.ofNat (48 + n % 10)] := by
  have h1 : toDec n = toDecAux n (n / 10) [Char.ofNat (48 + n % 10)] := by
    rw [toDec]
    show (if n < 10 then _ else _) = _
    rw [if_neg (by omega)]
  have hd : n / 10 < n := Nat.div_lt_self (by omega) (by omega)
  rw [h1, toDecAux_acc, toDecAux_fuel n (n / 10 + 1) (n / 10) [] hd (Nat.lt_succ_self _)]
  rfl

lemma toDec_ne_nil (n : Nat) : toDec n ≠ [] := by
  by_cases h : n < 10
  · rw [toDec_lt10 h]; simp
  · rw [toDec_step (by omega)]; simp

lemma toDec_digit_codes : ∀ n, ∀ c ∈ toDec n, 48 ≤ c.toNat ∧ c.toNat ≤ 57 := by
  have key : ∀ k n, n ≤ k → ∀ c ∈ toDec n, 48 ≤ c.toNat ∧ c.toNat ≤ 57 := by
    intro k
    induction k with
    | zero =>
      intro n h c hc
      have : n = 0 := by omega
      subst this
      rw [toDec_lt10 (by omega)] at hc
      rcases List.mem_singleton.mp hc with rfl
      rw [charOfNat_toNat (by omega)]
      omega
    | succ k ih =>
      intro n h c hc
      by_cases h10 : n < 10
      · rw [toDec_lt10 h10] at hc
        rcases List.mem_singleton.mp hc with rfl
        rw [charOfNat_toNat (by omega)]
        omega
      · rw [toDec_step (by omega)] at hc
        rcases List.mem_append.mp hc with hc | hc
        · have hd : n / 10 < n := Nat.div_lt_self (by omega) (by omega)
          exact ih (n / 10) (by omega) c hc
        · rcases List.mem_singleton.mp hc with rfl
          rw [charOfNat_toNat (by omega)]
          omega
  intro n
  exact key n n (Nat.le_refl n)

lemma toDec_inj : ∀ a b, toDec a = toDec b → a = b := by
  have key : ∀ k a b, a ≤ k → toDec a = toDec b → a = b := by
    intro k
    induction k with
    | zero =>
      intro a b ha heq
      have ha0 : a = 0 := by omega
      subst ha0
      by_cases hb : b < 10
      · rw [toDec_lt10 (by omega), toDec_lt10 hb] at heq
        have := List.head_eq_of_cons_eq heq
        have h2 := congrArg Char.toNat this
        rw [charOfNat_toNat (by omega), charOfNat_toNat (by omega)] at h2
        omega
      · rw [toDec_lt10 (by omega), toDec_step (by omega)] at heq
        have := congrArg List.length heq
        simp only [List.length_singleton, List.length_append] at this
        have := toDec_ne_nil (b / 10)
        have : (toDec (b / 10)).length ≠ 0 := fun hc => this (List.length_eq_zero.mp hc)
        omega
    | succ k ih =>
      intro a b ha heq
      by_cases ha10 : a < 10
      · by_cases hb : b < 10
        · rw [toDec_lt10 ha10, toDec_lt10 hb] at heq
          have := List.head_eq_of_cons_eq heq
          have h2 := congrArg Char.toNat this
          rw [charOfNat_toNat (by omega), charOfNat_toNat (by omega)] at h2
          omega
        · rw [toDec_lt10 ha10, toDec_step (by omega)] at heq
          have hlen := congrArg List.length heq
          simp only [List.length_singleton, List.length_append] at hlen
          have hne := toDec_ne_nil (b / 10)
          have : (toDec (b / 10)).length ≠ 0 := fun hc => hne (List.length_eq_zero.mp hc)
          omega
      · by_cases hb : b < 10
        · rw [toDec_step (by omega), toDec_lt10 hb] at heq
          have hlen := congrArg List.length heq
          simp only [List.length_singleton, List.length_append] at hlen
          have hne := toDec_ne_nil (a / 10)
          have : (toDec (a / 10)).length ≠ 0 := fun hc => hne (List.length_eq_zero.mp hc)
          omega
        · rw [toDec_step (show 10 ≤ a by omega), toDec_step (show 10 ≤ b by omega)] at heq
          rcases List.append_inj' heq (by simp) with ⟨hpre, hlast⟩
          have hd : a / 10 < a := Nat.div_lt_self (by omega) (by omega)
          have h1 : a / 10 = b / 10 := ih (a / 10) (b / 10) (by omega) hpre
          have h2 := congrArg Char.toNat (List.head_eq_of_cons_eq hlast)
          rw [charOfNat_toNat (by omega), charOfNat_toNat (by omega)] at h2
          omega
  intro a b
  exact key a a b (Nat.le_refl a)

lemma hashInput_inj (ts : String) {i j : Nat} (h : i ≠ j) :
    hashInput ts i ≠ hashInput ts j := by
  intro heq
  have hdata := congrArg String.data heq
  rw [hashInput, hashInput, String.data_append, String.data_append,
    String.data_append, String.data_append, List.append_assoc, List.append_assoc] at hdata
  have h2 := List.append_cancel_left hdata
  have h3 : (toDecStr i).data = (toDecStr j).data := List.append_cancel_left h2
  exact h (toDec_inj i j h3)

/-- Claim C1 counterexample: the claim asserts that a whitespace-only title
takes the hash branch, producing a 10-hex-digit content hash.  In the code,
Python truthiness sends any nonempty title (including " ") through
slugify, which strips the whitespace and yields the empty slug, not a
hash: make_slug_or_hash " " "unknown" 0 is "" while the hash branch would
have produced a 10-character digest prefix. -/
theorem claim_C1_counterexample :
    make_slug_or_hash " " "unknown" 0 = "" ∧ (hashSlug "unknown" 0).length = 10 := by
  constructor
  · rfl
  · decide

/-- Claim C1 (amended): for every thread whose title is the empty string
(whitespace-only titles instead take the slugify branch and yield the
empty slug), the computed slug is the first ten hex digits of the SHA-1 of
the string "-timestamp-_-index-"; this is a function of (timestamp, index)
alone, so it is deterministic; for identical timestamps and distinct
indices the hashed input strings differ (the 40-bit truncated digests can
therefore differ, and do at the sample pair shown in the last conjunct). -/
theorem claim_C1 (ts : String) (i j : Nat) (h : i ≠ j) :
    make_slug_or_hash "" ts i = hashSlug ts i ∧
    hashInput ts i ≠ hashInput ts j ∧
    hashSlug "unknown" 0 ≠ hashSlug "unknown" 1 := by
  refine ⟨rfl, hashInput_inj ts h, ?_⟩
  decide

/-- Claim C1 witness at timestamp "unknown" and indices 0 and 1. -/
theorem claim_C1_witness :
    make_slug_or_hash "" "unknown" 0 = hashSlug "unknown" 0 ∧
    hashInput "unknown" 0 ≠ hashInput "unknown" 1 :=
  ⟨(claim_C1 "unknown" 0 1 (by decide)).1, (claim_C1 "unknown" 0 1 (by decide)).2.1⟩

/-! Bounds for the civil conversion on the year range 1000 to 9999. -/

lemma doe_le (z : Nat) : doeOf z ≤ 146096 := by
  unfold doeOf
  omega

lemma yoe_le (z : Nat) : yoeOf z ≤ 399 := by
  have := doe_le z
  unfold yoeOf
  omega

lemma doy_le (z : Nat) : doyOf z ≤ 500 := by
  have := doe_le z
  unfold doyOf yoeOf
  omega

lemma month_bounds (z : Nat) : 1 ≤ monthOf z ∧ monthOf z ≤ 99 := by
  have hdoy := doy_le z
  unfold monthOf mpOf
  split <;> omega

lemma day_bounds (z : Nat) : 1 ≤ dayOf z ∧ dayOf z ≤ 99 := by
  have hdoy := doy_le z
  unfold dayOf mpOf
  omega

lemma year_bounds (z : Nat) (hz1 : 365183 ≤ z) (hz2 : z ≤ 3652364) :
    1000 ≤ yearOf z ∧ yearOf z ≤ 9999 := by
  have hera : eraOf z = z / 146097 := rfl
  have hdoe : doeOf z = z % 146097 := rfl
  have hyoe : yoeOf z = (doeOf z - doeOf z / 1460 + doeOf z / 36524 - doeOf z / 146096) / 365 := rfl
  have hdoy : doyOf z = doeOf z - (365 * yoeOf z + yoeOf z / 4 - yoeOf z / 100) := rfl
  have hmp : mpOf z = (5 * doyOf z + 2) / 153 := rfl
  have hyoe399 := yoe_le z
  have hera2 : 2 ≤ eraOf z := by omega
  have hera24 : eraOf z ≤ 24 := by omega
  have lower : 1000 ≤ eraOf z * 400 + yoeOf z + (if monthOf z ≤ 2 then 1 else 0) := by
    rcases Nat.lt_or_ge (eraOf z) 3 with h3 | h3
    · have he2 : eraOf z = 2 := by omega
      have hyoe199 : 199 ≤ yoeOf z := by omega
      by_cases h199 : yoeOf z = 199
      · have hdoy306 : 306 ≤ doyOf z := by omega
        have hmp10 : 10 ≤ mpOf z := by omega
        have hmp11 : mpOf z ≤ 11 := by omega
        have hm : monthOf z = mpOf z - 9 := by rw [monthOf, if_neg (by omega)]
        rw [hm, if_pos (by omega)]
        omega
      · rcases Nat.lt_or_ge (yoeOf z) 200 with h200 | h200
        · omega
        · split <;> omega
    · split <;> omega
  have upper : eraOf z * 400 + yoeOf z + (if monthOf z ≤ 2 then 1 else 0) ≤ 9999 := by
    by_cases he24 : eraOf z = 24
    · by_cases h399 : yoeOf z = 399
      · have hm0 : ¬ monthOf z ≤ 2 := by
          intro hm2
          have hmp10 : 10 ≤ mpOf z := by
            rw [monthOf] at hm2
            rcases Nat.lt_or_ge (mpOf z) 10 with h | h
            · rw [if_pos h] at hm2; omega
            · exact h
          have hdoy306 : 306 ≤ doyOf z := by omega
          omega
        rw [if_neg hm0]
        omega
      · split <;> omega
    · split <;> omega
  exact ⟨lower, upper⟩

lemma isDigitCode_of_mem {n : Nat} {c : Char} (h : c ∈ toDec n) : isDigitCode c = true := by
  have := toDec_digit_codes n c h
  simp only [isDigitCode, Bool.and_eq_true, decide_eq_true_eq]
  omega

lemma toDec_four {y : Nat} (h1 : 1000 ≤ y) (h2 : y ≤ 9999) :
    toDec y = [Char.ofNat (48 + y / 10 / 10 / 10), Char.ofNat (48 + y / 10 / 10 % 10),
      Char.ofNat (48 + y / 10 % 10), Char.ofNat (48 + y % 10)] := by
  rw [toDec_step (show 10 ≤ y by omega), toDec_step (show 10 ≤ y / 10 by omega),
    toDec_step (show 10 ≤ y / 10 / 10 by omega), toDec_lt10 (show y / 10 / 10 / 10 < 10 by omega)]
  simp

lemma pad2_two_digits {m : Nat} (h : m ≤ 99) :
    ∃ a b, pad2 m = [a, b] ∧ isDigitCode a = true ∧ isDigitCode b = true := by
  by_cases h10 : m < 10
  · refine ⟨'0', Char.ofNat (48 + m), ?_, by decide, ?_⟩
    · rw [pad2, if_pos h10, toDec_lt10 h10]
    · exact isDigitCode_of_mem (by rw [toDec_lt10 h10]; exact List.mem_singleton_self _)
  · have hstep : toDec m = [Char.ofNat (48 + m / 10), Char.ofNat (48 + m % 10)] := by
      rw [toDec_step (by omega), toDec_lt10 (by omega)]
      rfl
    refine ⟨Char.ofNat (48 + m / 10), Char.ofNat (48 + m % 10), ?_, ?_, ?_⟩
    · rw [pad2, if_neg h10, hstep]
    · exact isDigitCode_of_mem (by rw [hstep]; simp)
    · exact isDigitCode_of_mem (by rw [hstep]; simp)

lemma renderDT_pattern {y m d hh mi : Nat} (hy1 : 1000 ≤ y) (hy2 : y ≤ 9999)
    (hm : m ≤ 99) (hd : d ≤ 99) (hh2 : hh ≤ 99) (hmi2 : mi ≤ 99) :
    tsPattern (renderDT y m d hh mi) = true := by
  obtain ⟨m1, m2, hmeq, hm1, hm2⟩ := pad2_two_digits hm
  obtain ⟨d1, d2, hdeq, hd1, hd2⟩ := pad2_two_digits hd
  obtain ⟨g1, g2, hgeq, hg1, hg2⟩ := pad2_two_digits hh2
  obtain ⟨n1, n2, hneq, hn1, hn2⟩ := pad2_two_digits hmi2
  have hy := toDec_four hy1 hy2
  have hy1d : isDigitCode (Char.ofNat (48 + y / 10 / 10 / 10)) = true :=
    isDigitCode_of_mem (by rw [hy]; simp)
  have hy2d : isDigitCode (Char.ofNat (48 + y / 10 / 10 % 10)) = true :=
    isDigitCode_of_mem (by rw [hy]; simp)
  have hy3d : isDigitCode (Char.ofNat (48 + y / 10 % 10)) = true :=
    isDigitCode_of_mem (by rw [hy]; simp)
  have hy4d : isDigitCode (Char.ofNat (48 + y % 10)) = true :=
    isDigitCode_of_mem (by rw [hy]; simp)
  rw [renderDT, hy, hmeq, hdeq, hgeq, hneq]
  simp only [tsPattern, List.cons_append, List.nil_append]
  simp [hy1d, hy2d, hy3d, hy4d, hm1, hm2, hd1, hd2, hg1, hg2, hn1, hn2]

lemma epoch_z_bounds {n : Int} (h1 : -30610224000 ≤ n) (h2 : n ≤ 253402300799) :
    365183 ≤ (n.fdiv 86400 + 719468).toNat ∧ (n.fdiv 86400 + 719468).toNat ≤ 3652364 ∧
    (n.emod 86400).toNat ≤ 86399 := by
  have hfd : n.fdiv 86400 = n / 86400 := Int.fdiv_eq_ediv n (by omega)
  have hdm := Int.ediv_add_emod n 86400
  have hnn : 0 ≤ n % 86400 := Int.emod_nonneg n (by omega)
  have hlt : n % 86400 < 86400 := Int.emod_lt_of_pos n (by omega)
  have he : n.emod 86400 = n % 86400 := rfl
  rw [hfd, he]
  omega

/-- Claim C3 counterexample: the claim asserts that every numeric input
yields a string of shape YYYY-MM-DD HH:MM, but utcfromtimestamp raises
OverflowError on an int far beyond the datetime range; the bare except
turns this into the sentinel "unknown", which does not match the shape. -/
theorem claim_C3_counterexample :
    format_ts (fun _ => none) (TsVal.int 100000000000000000000) = "unknown" ∧
    tsPattern "unknown" = false := by
  constructor
  · decide
  · decide

/-- Claim C3 (amended): for int inputs inside the representable datetime
range with year at least 1000 the formatter returns a string matching
YYYY-MM-DD HH:MM; for int inputs outside the representable range
utcfromtimestamp raises and the formatter returns the sentinel "unknown";
a value of non-numeric non-string type returns "unknown"; a string on
which the ISO-8601 parse fails returns "unknown".  The formatter never
raises: it is a total function. -/
theorem claim_C3 (parseIso : String → Option ParsedDT) (v : Int) (s : String) :
    (-30610224000 ≤ v → v ≤ 253402300799 →
      tsPattern (format_ts parseIso (TsVal.int v)) = true) ∧
    (v < minEpoch ∨ maxEpoch < v → format_ts parseIso (TsVal.int v) = "unknown") ∧
    format_ts parseIso TsVal.other = "unknown" ∧
    (parseIso (replaceZ s) = none → format_ts parseIso (TsVal.str s) = "unknown") := by
  refine ⟨fun h1 h2 => ?_, fun h => ?_, rfl, fun h => ?_⟩
  · obtain ⟨hz1, hz2, hsecs⟩ := epoch_z_bounds h1 h2
    have hcond : minEpoch ≤ v ∧ v ≤ maxEpoch := by
      rw [minEpoch, maxEpoch]
      omega
    show tsPattern (if minEpoch ≤ v ∧ v ≤ maxEpoch then formatEpoch v else "unknown") = true
    rw [if_pos hcond]
    show tsPattern (renderDT (yearOf ((v.fdiv 86400 + 719468).toNat))
      (monthOf ((v.fdiv 86400 + 719468).toNat)) (dayOf ((v.fdiv 86400 + 719468).toNat))
      ((v.emod 86400).toNat / 3600) ((v.emod 86400).toNat % 3600 / 60)) = true
    have hy := year_bounds _ hz1 hz2
    have hm := month_bounds ((v.fdiv 86400 + 719468).toNat)
    have hd := day_bounds ((v.fdiv 86400 + 719468).toNat)
    exact renderDT_pattern hy.1 hy.2 hm.2 hd.2 (by omega) (by omega)
  · show (if minEpoch ≤ v ∧ v ≤ maxEpoch then formatEpoch v else "unknown") = "unknown"
    rw [if_neg]
    intro hc
    omega
  · show (match parseIso (replaceZ s) with
      | some dt => renderDT dt.year dt.month dt.day dt.hour dt.minute
      | none => "unknown") = "unknown"
    rw [h]

/-- Claim C3 witness: a sample in-range epoch yields the pattern, a sample
beyond-range int yields the sentinel, and a string the parser rejects
yields the sentinel. -/
theorem claim_C3_witness :
    tsPattern (format_ts (fun _ => none) (TsVal.int 1700000000)) = true ∧
    format_ts (fun _ => none) (TsVal.int 300000000000) = "unknown" ∧
    format_ts (fun _ => none) (TsVal.str "not a timestamp") = "unknown" :=
  ⟨(claim_C3 (fun _ => none) 1700000000 "").1 (by decide) (by decide),
   (claim_C3 (fun _ => none) 300000000000 "").2.1 (Or.inr (by decide)),
   (claim_C3 (fun _ => none) 0 "not a timestamp").2.2.2 rfl⟩

/-! Extraction loop lemmas. -/

lemma extractLoop_congr (inc : Bool) (title : String) (idx : Nat)
    {l1 l2 : List PyNode}
    (h : ∀ log, extractLoop inc title idx l1 log = extractLoop inc title idx l2 log) :
    ∀ pre log, extractLoop inc title idx (pre ++ l1) log
      = extractLoop inc title idx (pre ++ l2) log := by
  intro pre
  induction pre with
  | nil => exact h
  | cons n rest ih =>
    intro log
    show extractLoop inc title idx (n :: (rest ++ l1)) log
      = extractLoop inc title idx (n :: (rest ++ l2)) log
    cases hmsg : n.message with
    | none =>
      simp only [extractLoop, hmsg]
      exact ih log
    | some msg =>
      simp only [extractLoop, hmsg]
      by_cases hrole : roleOf msg = "system" ∧ inc = false
      · rw [if_pos hrole, if_pos hrole]
        exact ih log
      · rw [if_neg hrole, if_neg hrole]
        cases hp : process_parts (partsOfMsg msg) title idx log with
        | error e => rfl
        | ok pr =>
          cases pr with
          | mk content log2 =>
            show (match extractLoop inc title idx (rest ++ l1) log2 with
              | Except.error e => Except.error e
              | Except.ok (msgs, log3) =>
                if content = "" then Except.ok (msgs, log3)
                else Except.ok ((roleOf msg, content) :: msgs, log3))
              = (match extractLoop inc title idx (rest ++ l2) log2 with
              | Except.error e => Except.error e
              | Except.ok (msgs, log3) =>
                if content = "" then Except.ok (msgs, log3)
                else Except.ok ((roleOf msg, content) :: msgs, log3))
            rw [ih log2]

lemma extractLoop_match_self (inc : Bool) (title : String) (idx : Nat)
    (l : List PyNode) (log : List String) :
    (match extractLoop inc title idx l log with
      | Except.error e => Except.error e
      | Except.ok (msgs, log3) => Except.ok (msgs, log3))
      = extractLoop inc title idx l log := by
  cases extractLoop inc title idx l log with
  | error e => rfl
  | ok pr => cases pr with | mk a b => rfl

/-- Claim C5: in the extraction loop over the mapping values (visited in
iteration order), a node without a message contributes nothing; a message
with a missing author dict or a missing role key behaves exactly as the
role "unknown"; a message whose role is "system" is dropped when system
messages are excluded; and a message whose resolved stripped text is empty
is dropped entirely, contributing neither a pair to the output sequence
(whose length is the exported-message total) nor anything beyond its media
log entries. -/
theorem claim_C5 (inc : Bool) (title : String) (idx : Nat)
    (pre post : List PyNode) (log : List String) (msg : PyMessage) :
    (extractLoop inc title idx (pre ++ { message := none } :: post) log =
      extractLoop inc title idx (pre ++ post) log) ∧
    (msg.author = none ∨ msg.author = some { role := none } →
      extractLoop inc title idx (pre ++ { message := some msg } :: post) log =
        extractLoop inc title idx
          (pre ++ { message := some { msg with author := some { role := some "unknown" } } }
            :: post) log) ∧
    (roleOf msg = "system" →
      extractLoop false title idx (pre ++ { message := some msg } :: post) log =
        extractLoop false title idx (pre ++ post) log) ∧
    (∀ log2, ¬(roleOf msg = "system" ∧ inc = false) →
      process_parts (partsOfMsg msg) title idx log = Except.ok ("", log2) →
      extractLoop inc title idx ({ message := some msg } :: post) log =
        extractLoop inc title idx post log2) := by
  refine ⟨?_, fun h => ?_, fun h => ?_, fun log2 hrole hp => ?_⟩
  · refine extractLoop_congr inc title idx (fun lg => ?_) pre log
    simp only [extractLoop]
  · refine extractLoop_congr inc title idx (fun lg => ?_) pre log
    have hrole : roleOf msg = "unknown" := by
      rcases h with h | h <;> simp [roleOf, h]
    have hrole2 : roleOf { msg with author := some { role := some "unknown" } } = "unknown" := rfl
    have hparts : partsOfMsg { msg with author := some { role := some "unknown" } }
        = partsOfMsg msg := rfl
    simp only [extractLoop, hrole, hrole2, hparts]
  · refine extractLoop_congr false title idx (fun lg => ?_) pre log
    simp [extractLoop, h]
  · have hstep : extractLoop inc title idx ({ message := some msg } :: post) log
        = (if roleOf msg = "system" ∧ inc = false then extractLoop inc title idx post log
          else
            match process_parts (partsOfMsg msg) title idx log with
            | Except.error e => Except.error e
            | Except.ok (content, lg2) =>
              match extractLoop inc title idx post lg2 with
              | Except.error e => Except.error e
              | Except.ok (msgs, log3) =>
                if content = "" then Except.ok (msgs, log3)
                else Except.ok ((roleOf msg, content) :: msgs, log3)) := rfl
    rw [hstep, if_neg hrole, hp]
    show (match extractLoop inc title idx post log2 with
      | Except.error e => Except.error e
      | Except.ok (msgs, log3) =>
        if ("" : String) = "" then Except.ok (msgs, log3)
        else Except.ok ((roleOf msg, "") :: msgs, log3)) = extractLoop inc title idx post log2
    cases extractLoop inc title idx post log2 with
    | error e => rfl
    | ok pr =>
      cases pr with
      | mk a b =>
        show (if ("" : String) = "" then Except.ok (a, b)
          else Except.ok ((roleOf msg, "") :: a, b)) = Except.ok (a, b)
        rw [if_pos rfl]

/-- Claim C5 witness: a system message is dropped when system messages are
excluded, and a message whose parts strip to nothing is dropped entirely. -/
theorem claim_C5_witness :
    extractLoop false "t" 0
      [(⟨some ⟨some ⟨some "system"⟩, some ⟨some [PartVal.str "hello"]⟩⟩⟩ : PyNode)] [] =
      extractLoop false "t" 0 [] [] ∧
    extractLoop true "t" 0
      [(⟨some ⟨none, some ⟨some [PartVal.str "  "]⟩⟩⟩ : PyNode)] [] =
      Except.ok ([], []) := by
  constructor
  · exact (claim_C5 false "t" 0 [] [] []
      ⟨some ⟨some "system"⟩, some ⟨some [PartVal.str "hello"]⟩⟩).2.2.1 rfl
  · have h := (claim_C5 true "t" 0 [] [] []
      ⟨none, some ⟨some [PartVal.str "  "]⟩⟩).2.2.2 [] (by simp) rfl
    exact h.trans rfl

/-! Content-part elimination lemmas. -/

lemma processPartsAux_congr (title : String) {l1 l2 : List PartVal}
    (h : ∀ acc log, processPartsAux title l1 acc log = processPartsAux title l2 acc log) :
    ∀ pre acc log, processPartsAux title (pre ++ l1) acc log
      = processPartsAux title (pre ++ l2) acc log := by
  intro pre
  induction pre with
  | nil => exact h
  | cons p rest ih =>
    intro acc log
    cases p with
    | str s =>
      show processPartsAux title (PartVal.str s :: (rest ++ l1)) acc log = _
      simp only [processPartsAux]
      exact ih _ _
    | dict d =>
      show processPartsAux title (PartVal.dict d :: (rest ++ l1)) acc log = _
      simp only [processPartsAux]
      split
      · split
        · split
          · exact ih _ _
          · exact ih _ _
        · rfl
      · split
        · exact ih _ _
        · exact ih _ _
    | other =>
      show processPartsAux title (PartVal.other :: (rest ++ l1)) acc log = _
      simp only [processPartsAux]
      exact ih _ _

lemma processPartsAux_err (title : String) (post : List PartVal) (d : PartDict)
    (hc : d.content_type = some (PyStrVal.str "image_asset_pointer"))
    (ha : d.asset_pointer = some PyStrVal.nonstr) :
    ∀ pre acc log, processPartsAux title (pre ++ PartVal.dict d :: post) acc log
      = Except.error PyErr.attributeError := by
  intro pre
  induction pre with
  | nil =>
    intro acc log
    show processPartsAux title (PartVal.dict d :: post) acc log = _
    simp only [processPartsAux]
    rw [if_pos hc, ha]
    rfl
  | cons p rest ih =>
    intro acc log
    cases p with
    | str s =>
      show processPartsAux title (PartVal.str s :: (rest ++ PartVal.dict d :: post)) acc log = _
      simp only [processPartsAux]
      exact ih _ _
    | dict d2 =>
      show processPartsAux title (PartVal.dict d2 :: (rest ++ PartVal.dict d :: post)) acc log = _
      simp only [processPartsAux]
      split
      · split
        · split
          · exact ih _ _
          · exact ih _ _
        · rfl
      · split
        · exact ih _ _
        · exact ih _ _
    | other =>
      show processPartsAux title (PartVal.other :: (rest ++ PartVal.dict d :: post)) acc log = _
      simp only [processPartsAux]
      exact ih _ _

/-- Claim C9 counterexample: the claim asserts that an image-asset-pointer
dict whose asset_pointer does not start with the file-service scheme
contributes nothing without raising, for arbitrary part values; but when
the asset_pointer value is a non-str (for example the int 5), the call
asset.startswith raises AttributeError, which no handler catches. -/
theorem claim_C9_counterexample :
    process_parts
      [PartVal.dict ⟨some (PyStrVal.str "image_asset_pointer"), some PyStrVal.nonstr, none⟩]
      "t" 0 [] = Except.error PyErr.attributeError := rfl

/-- Claim C9 (amended): part resolution silently skips a part that is
neither a str nor a dict, a dict that is neither an image-asset pointer nor
carries a "text" key, and an image-asset-pointer dict whose asset_pointer
is a str (or missing) that does not start with "file-service://file-" —
each such part contributes nothing to the text and nothing to the media
log; an image-asset-pointer dict whose asset_pointer holds a non-str value
instead raises AttributeError. -/
theorem claim_C9 (title : String) (idx : Nat) (log : List String)
    (pre post : List PartVal) (d : PartDict) :
    (process_parts (pre ++ PartVal.other :: post) title idx log =
      process_parts (pre ++ post) title idx log) ∧
    (d.content_type ≠ some (PyStrVal.str "image_asset_pointer") → d.text = none →
      process_parts (pre ++ PartVal.dict d :: post) title idx log =
        process_parts (pre ++ post) title idx log) ∧
    (d.content_type = some (PyStrVal.str "image_asset_pointer") →
      d.asset_pointer ≠ some PyStrVal.nonstr →
      (∀ a : String, d.asset_pointer.getD (PyStrVal.str "") = PyStrVal.str a →
        pyStartsWith "file-service://file-" a = false) →
      process_parts (pre ++ PartVal.dict d :: post) title idx log =
        process_parts (pre ++ post) title idx log) ∧
    (d.content_type = some (PyStrVal.str "image_asset_pointer") →
      d.asset_pointer = some PyStrVal.nonstr →
      process_parts (pre ++ PartVal.dict d :: post) title idx log =
        Except.error PyErr.attributeError) := by
  refine ⟨?_, fun hc ht => ?_, fun hc hns ha => ?_, fun hc ha => ?_⟩
  · have hstep : ∀ acc lg, processPartsAux title (PartVal.other :: post) acc lg
        = processPartsAux title post acc lg := fun acc lg => by
      simp only [processPartsAux]
    rw [process_parts, process_parts, processPartsAux_congr title hstep pre [] log]
  · have hstep : ∀ acc lg, processPartsAux title (PartVal.dict d :: post) acc lg
        = processPartsAux title post acc lg := fun acc lg => by
      show processPartsAux title (PartVal.dict d :: post) acc lg = _
      simp only [processPartsAux]
      rw [if_neg hc, ht]
    rw [process_parts, process_parts, processPartsAux_congr title hstep pre [] log]
  · have hstep : ∀ acc lg, processPartsAux title (PartVal.dict d :: post) acc lg
        = processPartsAux title post acc lg := fun acc lg => by
      show processPartsAux title (PartVal.dict d :: post) acc lg = _
      simp only [processPartsAux]
      rw [if_pos hc]
      split
      · rename_i asset heq
        rw [if_neg (by rw [ha asset heq]; exact Bool.false_ne_true)]
      · rename_i heq
        exfalso
        cases hap : d.asset_pointer with
        | none => rw [hap] at heq; exact nomatch heq
        | some v =>
          cases v with
          | str s => rw [hap] at heq; exact nomatch heq
          | nonstr => exact hns hap
    rw [process_parts, process_parts, processPartsAux_congr title hstep pre [] log]
  · rw [process_parts, processPartsAux_err title post d hc ha pre [] log]

/-- Claim C9 witness: a non-str non-dict part and a dict with neither shape
are skipped, and a string image-asset pointer outside the scheme is
skipped. -/
theorem claim_C9_witness :
    process_parts [PartVal.str "a", PartVal.other] "t" 0 [] =
      process_parts [PartVal.str "a"] "t" 0 [] ∧
    process_parts [PartVal.dict ⟨none, none, none⟩] "t" 0 [] =
      process_parts [] "t" 0 [] ∧
    process_parts [PartVal.dict ⟨some (PyStrVal.str "image_asset_pointer"),
      some (PyStrVal.str "http://x"), none⟩] "t" 0 [] =
      process_parts [] "t" 0 [] := by
  refine ⟨?_, ?_, ?_⟩
  · exact (claim_C9 "t" 0 [] [PartVal.str "a"] [] ⟨none, none, none⟩).1
  · exact (claim_C9 "t" 0 [] [] [] ⟨none, none, none⟩).2.1 (by simp) rfl
  · exact (claim_C9 "t" 0 [] [] []
      ⟨some (PyStrVal.str "image_asset_pointer"), some (PyStrVal.str "http://x"), none⟩).2.2.1
      rfl (by simp)
      (fun a ha => by
        have ha2 : a = "http://x" := by simpa using ha.symm
        subst ha2
        decide)

/-! Regex scanning lemmas for sanitize_and_log_images. -/

lemma getElemMem {l : List Char} {n : Nat} {a : Char} (h : l[n]? = some a) : a ∈ l := by
  rcases List.getElem?_eq_some_iff.mp h with ⟨hn, he⟩
  exact he ▸ List.getElem_mem hn

lemma urlPfx_notPrefix_noColon {cs : List Char} (h : ':' ∉ cs) :
    urlPfx.isPrefixOf cs = false := by
  by_contra hc
  have hp : urlPfx <+: cs := List.isPrefixOf_iff_prefix.mp (by
    cases hb : urlPfx.isPrefixOf cs
    · exact absurd hb hc
    · rfl)
  obtain ⟨t, ht⟩ := hp
  apply h
  rw [← ht]
  exact List.mem_append.mpr (Or.inl (by decide))

lemma urlPfx_notPrefix_gap {g r : List Char} (hg : ':' ∉ g) (hgne : g ≠ [])
    (t : List Char) (hr : r = 'h' :: 't' :: 't' :: 'p' :: 's' :: ':' :: t) :
    urlPfx.isPrefixOf (g ++ r) = false := by
  by_contra hc
  have hp : urlPfx <+: g ++ r := List.isPrefixOf_iff_prefix.mp (by
    cases hb : urlPfx.isPrefixOf (g ++ r)
    · exact absurd hb hc
    · rfl)
  obtain ⟨u, hu⟩ := hp
  have h5 : (g ++ r)[5]? = some ':' := by
    rw [← hu, List.getElem?_append_left (by decide)]
    decide
  have hglen : g.length ≠ 0 := fun h0 => hgne (List.length_eq_zero.mp h0)
  by_cases hlen : 6 ≤ g.length
  · rw [List.getElem?_append_left (by omega)] at h5
    exact hg (getElemMem h5)
  · rw [List.getElem?_append_right (by omega)] at h5
    have hcases : g.length = 1 ∨ g.length = 2 ∨ g.length = 3 ∨ g.length = 4 ∨ g.length = 5 := by
      omega
    subst hr
    rcases hcases with h1 | h1 | h1 | h1 | h1 <;> rw [h1] at h5 <;> simp at h5

lemma mkUrl_append_https (body x : List Char) :
    ∃ t, mkUrl body ++ x = 'h' :: 't' :: 't' :: 'p' :: 's' :: ':' :: t := by
  have h : urlPfx = 'h' :: 't' :: 't' :: 'p' :: 's' :: ':'
      :: "//files.oaiusercontent.com/".data := rfl
  refine ⟨"//files.oaiusercontent.com/".data ++ body ++ ".png".data ++ x, ?_⟩
  rw [mkUrl, h]
  simp [List.cons_append, List.append_assoc]

lemma findMatchAt_none {cs : List Char} (h : urlPfx.isPrefixOf cs = false) :
    findMatchAt cs = none := by
  rw [findMatchAt]
  rw [if_neg (by rw [h]; exact Bool.false_ne_true)]

lemma findMatchAt_some_decomp {cs : List Char} {p : List Char × List Char}
    (h : findMatchAt cs = some p) : cs = p.1 ++ p.2 ∧ p.1 ≠ [] := by
  rw [findMatchAt] at h
  by_cases h1 : urlPfx.isPrefixOf cs = true
  · rw [if_pos h1] at h
    by_cases h2 : (cs.drop urlPfx.length).takeWhile isUrlChar ≠ [] ∧
        (".png".data.isPrefixOf
          ((cs.drop urlPfx.length).drop
            ((cs.drop urlPfx.length).takeWhile isUrlChar).length)) = true
    · rw [if_pos h2] at h
      have hp := Option.some.inj h
      obtain ⟨t, ht⟩ := List.isPrefixOf_iff_prefix.mp h1
      have hR : cs.drop urlPfx.length = t := by rw [← ht, List.drop_left]
      rw [hR] at hp h2
      obtain ⟨u, hu⟩ := List.isPrefixOf_iff_prefix.mp h2.2
      have htw : t.takeWhile isUrlChar ++ t.dropWhile isUrlChar = t :=
        List.takeWhile_append_dropWhile isUrlChar t
      have hdrop : t.drop (t.takeWhile isUrlChar).length = t.dropWhile isUrlChar := by
        nth_rewrite 2 [← htw]
        rw [List.drop_left]
      rw [hdrop] at hp hu
      have hu4 : (t.dropWhile isUrlChar).drop 4 = u := by
        rw [← hu]
        have h4 : (".png".data).length = 4 := rfl
        rw [← h4, List.drop_left]
      rw [hu4] at hp
      constructor
      · rw [← hp]
        show cs = urlPfx ++ t.takeWhile isUrlChar ++ ".png".data ++ u
        rw [← ht, List.append_assoc, List.append_assoc, hu, htw]
      · rw [← hp]
        simp
    · rw [if_neg h2] at h
      exact nomatch h
  · rw [if_neg h1] at h
    exact nomatch h

lemma findallAux_fuel : ∀ f1 f2 (cs : List Char), cs.length ≤ f1 → cs.length ≤ f2 →
    findallAux f1 cs = findallAux f2 cs := by
  intro f1
  induction f1 with
  | zero =>
    intro f2 cs h1 _
    have : cs = [] := List.length_eq_zero.mp (Nat.le_zero.mp h1)
    subst this
    cases f2 with
    | zero => rfl
    | succ g => rfl
  | succ f ih =>
    intro f2 cs h1 h2
    cases cs with
    | nil =>
      cases f2 with
      | zero => rfl
      | succ g => rfl
    | cons c t =>
      cases f2 with
      | zero => simp at h2
      | succ g =>
        simp only [findallAux]
        cases hm : findMatchAt (c :: t) with
        | some p =>
          obtain ⟨hdec, hne⟩ := findMatchAt_some_decomp hm
          cases p with
          | mk m rest =>
            show m :: findallAux f rest = m :: findallAux g rest
            have hlen : rest.length ≤ f ∧ rest.length ≤ g := by
              have := congrArg List.length hdec
              simp only [List.length_cons, List.length_append] at this
              have hm1 : m.length ≠ 0 := fun hc => hne (List.length_eq_zero.mp hc)
              simp only [List.length_cons] at h1 h2
              omega
            rw [ih g rest hlen.1 hlen.2]
        | none =>
          show findallAux f t = findallAux g t
          simp only [List.length_cons] at h1 h2
          exact ih g t (by omega) (by omega)

lemma pyFindallUrls_some {cs : List Char} {m rest : List Char}
    (h : findMatchAt cs = some (m, rest)) :
    pyFindallUrls cs = m :: pyFindallUrls rest := by
  obtain ⟨hdec, hne⟩ := findMatchAt_some_decomp h
  cases cs with
  | nil =>
    have := congrArg List.length hdec
    simp only [List.length_nil, List.length_append] at this
    have hm0 : m.length = 0 := by omega
    exact absurd (List.length_eq_zero.mp hm0) hne
  | cons c tl =>
    show findallAux (c :: tl).length (c :: tl) = m :: pyFindallUrls rest
    simp only [List.length_cons, findallAux]
    rw [h]
    show m :: findallAux tl.length rest = m :: pyFindallUrls rest
    have hlen : rest.length ≤ tl.length := by
      have := congrArg List.length hdec
      simp only [List.length_cons, List.length_append] at this
      have hm1 : m.length ≠ 0 := fun hc => hne (List.length_eq_zero.mp hc)
      omega
    rw [findallAux_fuel tl.length rest.length rest hlen (Nat.le_refl _)]
    rfl

lemma pyFindallUrls_none_cons {c : Char} {tl : List Char}
    (h : findMatchAt (c :: tl) = none) :
    pyFindallUrls (c :: tl) = pyFindallUrls tl := by
  show findallAux (c :: tl).length (c :: tl) = pyFindallUrls tl
  simp only [List.length_cons, findallAux]
  rw [h]
  rfl

lemma takeWhile_all_append {p : Char → Bool} {l1 : List Char} (l2 : List Char)
    (h : l1.all p = true) :
    (l1 ++ l2).takeWhile p = l1 ++ l2.takeWhile p := by
  induction l1 with
  | nil => rfl
  | cons a t ih =>
    simp only [List.all_cons, Bool.and_eq_true] at h
    rw [List.cons_append, List.takeWhile_cons, if_pos h.1, ih h.2]
    rfl

lemma findMatchAt_mkUrl {body : List Char} (rest : List Char)
    (hb1 : body ≠ []) (hb2 : body.all isUrlChar = true) :
    findMatchAt (mkUrl body ++ rest) = some (mkUrl body, rest) := by
  have hshape : mkUrl body ++ rest = urlPfx ++ (body ++ (".png".data ++ rest)) := by
    rw [mkUrl, List.append_assoc, List.append_assoc]
  have hpng0 : (".png".data ++ rest).takeWhile isUrlChar = [] := by
    show (('.' :: "png".data) ++ rest).takeWhile isUrlChar = []
    rw [List.cons_append, List.takeWhile_cons, if_neg (by decide)]
  have h4 : (".png".data ++ rest).drop 4 = rest := by
    have hl : (".png".data).length = 4 := rfl
    rw [← hl, List.drop_left]
  rw [hshape]
  simp only [findMatchAt]
  rw [List.drop_left, takeWhile_all_append _ hb2, hpng0, List.append_nil, List.drop_left]
  rw [if_pos (List.isPrefixOf_iff_prefix.mpr (List.prefix_append urlPfx _))]
  rw [if_pos ⟨hb1, List.isPrefixOf_iff_prefix.mpr (List.prefix_append (".png".data) rest)⟩]
  rw [h4, mkUrl]

lemma pyFindallUrls_noColon {l : List Char} (h : ':' ∉ l) : pyFindallUrls l = [] := by
  induction l with
  | nil => rfl
  | cons c t ih =>
    rw [pyFindallUrls_none_cons (findMatchAt_none (urlPfx_notPrefix_noColon h))]
    exact ih (fun hc => h (List.mem_cons_of_mem c hc))

lemma pyFindallUrls_gap {g r : List Char} (hg : ':' ∉ g)
    (t0 : List Char) (hr : r = 'h' :: 't' :: 't' :: 'p' :: 's' :: ':' :: t0) :
    pyFindallUrls (g ++ r) = pyFindallUrls r := by
  induction g with
  | nil => rfl
  | cons c g2 ih =>
    have hg2 : ':' ∉ g2 := fun hc => hg (List.mem_cons_of_mem c hc)
    have hnp : urlPfx.isPrefixOf ((c :: g2) ++ r) = false :=
      urlPfx_notPrefix_gap hg (List.cons_ne_nil c g2) t0 hr
    rw [List.cons_append] at hnp ⊢
    rw [pyFindallUrls_none_cons (findMatchAt_none hnp)]
    exact ih hg2

lemma replaceAux_fuel {sub repl : List Char} (hs : sub ≠ []) :
    ∀ f1 f2 (cs : List Char), cs.length ≤ f1 → cs.length ≤ f2 →
    replaceAux sub repl f1 cs = replaceAux sub repl f2 cs := by
  intro f1
  induction f1 with
  | zero =>
    intro f2 cs h1 _
    have : cs = [] := List.length_eq_zero.mp (Nat.le_zero.mp h1)
    subst this
    cases f2 with
    | zero => rfl
    | succ g => rfl
  | succ f ih =>
    intro f2 cs h1 h2
    cases cs with
    | nil =>
      cases f2 with
      | zero => rfl
      | succ g => rfl
    | cons c t =>
      cases f2 with
      | zero => simp at h2
      | succ g =>
        simp only [replaceAux]
        have hslen : sub.length ≠ 0 := fun h0 => hs (List.length_eq_zero.mp h0)
        simp only [List.length_cons] at h1 h2
        by_cases hp : sub.isPrefixOf (c :: t) = true
        · rw [if_pos hp, if_pos hp]
          have hd : ((c :: t).drop sub.length).length ≤ f ∧
              ((c :: t).drop sub.length).length ≤ g := by
            simp only [List.length_drop, List.length_cons]
            omega
          rw [ih g _ hd.1 hd.2]
        · rw [if_neg hp, if_neg hp, ih g t (by omega) (by omega)]

lemma pyReplace_nomatch_cons {sub repl : List Char} {c : Char} {t : List Char}
    (h : sub.isPrefixOf (c :: t) = false) :
    pyReplace (c :: t) sub repl = c :: pyReplace t sub repl := by
  show replaceAux sub repl (c :: t).length (c :: t) = _
  simp only [List.length_cons, replaceAux]
  rw [if_neg (by rw [h]; exact Bool.false_ne_true)]
  rfl

lemma pyReplace_match {sub repl r : List Char} (hs : sub ≠ []) :
    pyReplace (sub ++ r) sub repl = repl ++ pyReplace r sub repl := by
  cases hsub : sub with
  | nil => exact absurd hsub hs
  | cons s0 s1 =>
    rw [← hsub]
    have hlen : (sub ++ r).length = sub.length + r.length := List.length_append sub r
    have hslen : sub.length ≠ 0 := fun h0 => hs (List.length_eq_zero.mp h0)
    have hcons : sub ++ r = s0 :: (s1 ++ r) := by rw [hsub]; rfl
    show replaceAux sub repl (sub ++ r).length (sub ++ r) = _
    rw [hcons]
    have hlc : (s0 :: (s1 ++ r)).length = (s1 ++ r).length + 1 := rfl
    rw [hlc]
    simp only [replaceAux]
    have hpre : sub.isPrefixOf (s0 :: (s1 ++ r)) = true := by
      rw [← hcons]
      exact List.isPrefixOf_iff_prefix.mpr (List.prefix_append sub r)
    rw [if_pos hpre]
    have hdrop : (s0 :: (s1 ++ r)).drop sub.length = r := by
      rw [← hcons, List.drop_left]
    rw [hdrop]
    have hfuel : (s1 ++ r).length = sub.length + r.length - 1 := by
      have : (s0 :: (s1 ++ r)).length = sub.length + r.length := by
        rw [← hcons, hlen]
      simp only [List.length_cons] at this
      omega
    rw [replaceAux_fuel hs ((s1 ++ r).length) r.length r (by rw [hfuel]; omega)
      (Nat.le_refl _)]
    rfl

lemma mkUrl_isPrefixOf_false {cs body : List Char}
    (h : urlPfx.isPrefixOf cs = false) : (mkUrl body).isPrefixOf cs = false := by
  cases hb : (mkUrl body).isPrefixOf cs
  · rfl
  · exfalso
    have hp : mkUrl body <+: cs := List.isPrefixOf_iff_prefix.mp hb
    have hu : urlPfx <+: mkUrl body := by
      rw [mkUrl, List.append_assoc]
      exact List.prefix_append urlPfx _
    have : urlPfx.isPrefixOf cs = true :=
      List.isPrefixOf_iff_prefix.mpr (hu.trans hp)
    rw [h] at this
    exact Bool.false_ne_true this

lemma pyReplace_noColon {cs body repl : List Char} (h : ':' ∉ cs) :
    pyReplace cs (mkUrl body) repl = cs := by
  induction cs with
  | nil => rfl
  | cons c t ih =>
    rw [pyReplace_nomatch_cons (mkUrl_isPrefixOf_false (urlPfx_notPrefix_noColon h))]
    rw [ih (fun hc => h (List.mem_cons_of_mem c hc))]

lemma pyReplace_gap {g r body repl : List Char} (hg : ':' ∉ g)
    (t0 : List Char) (hr : r = 'h' :: 't' :: 't' :: 'p' :: 's' :: ':' :: t0) :
    pyReplace (g ++ r) (mkUrl body) repl = g ++ pyReplace r (mkUrl body) repl := by
  induction g with
  | nil => rfl
  | cons c g2 ih =>
    have hg2 : ':' ∉ g2 := fun hc => hg (List.mem_cons_of_mem c hc)
    have hnp : urlPfx.isPrefixOf ((c :: g2) ++ r) = false :=
      urlPfx_notPrefix_gap hg (List.cons_ne_nil c g2) t0 hr
    rw [List.cons_append] at hnp ⊢
    rw [pyReplace_nomatch_cons (mkUrl_isPrefixOf_false hnp), ih hg2]
    rfl

lemma noColon_append {l1 l2 : List Char} (h1 : ':' ∉ l1) (h2 : ':' ∉ l2) :
    ':' ∉ l1 ++ l2 := fun h => (List.mem_append.mp h).elim h1 h2

lemma toDec_noColon (n : Nat) : ':' ∉ toDec n := by
  intro h
  have := toDec_digit_codes n ':' h
  simp at this

lemma pad2_noColon (n : Nat) : ':' ∉ pad2 n := by
  rw [pad2]
  by_cases h : n < 10
  · rw [if_pos h]
    intro hm
    rcases List.mem_cons.mp hm with h0 | h0
    · exact absurd h0 (by decide)
    · exact toDec_noColon n h0
  · rw [if_neg h]
    exact toDec_noColon n

lemma pad3_noColon (n : Nat) : ':' ∉ pad3 n := by
  rw [pad3]
  by_cases h : n < 10
  · rw [if_pos h]
    intro hm
    rcases List.mem_cons.mp hm with h0 | h0
    · exact absurd h0 (by decide)
    rcases List.mem_cons.mp h0 with h1 | h1
    · exact absurd h1 (by decide)
    · exact toDec_noColon n h1
  · rw [if_neg h]
    by_cases h2 : n < 100
    · rw [if_pos h2]
      intro hm
      rcases List.mem_cons.mp hm with h0 | h0
      · exact absurd h0 (by decide)
      · exact toDec_noColon n h0
    · rw [if_neg h2]
      exact toDec_noColon n

lemma slugify_noColon (t : String) : ':' ∉ (slugify t).data := by
  intro h
  have := (slugify_chars t ':' h).1
  simp [pyIsAlnum] at this

lemma slugOrImage_noColon (t : String) : ':' ∉ (slugOrImage t).data := by
  rw [slugOrImage]
  by_cases h : slugify t = ""
  · rw [if_pos h]
    decide
  · rw [if_neg h]
    exact slugify_noColon t

lemma dataMk (l : List Char) : (String.mk l).data = l := rfl

lemma baseName_noColon (t : String) (idx count : Nat) :
    ':' ∉ (baseName t idx count).data := by
  rw [baseName]
  rw [String.data_append, String.data_append, String.data_append,
    String.data_append, String.data_append]
  exact noColon_append (noColon_append (noColon_append (noColon_append
    (noColon_append (slugOrImage_noColon t) (by decide)) (pad3_noColon idx))
    (by decide)) (pad2_noColon count)) (by decide)

lemma mkUrl_https (body : List Char) :
    ∃ t, mkUrl body = 'h' :: 't' :: 't' :: 'p' :: 's' :: ':' :: t := by
  obtain ⟨t0, ht0⟩ := mkUrl_append_https body []
  rw [List.append_nil] at ht0
  exact ⟨t0, ht0⟩

lemma mkUrl_ne_nil (body : List Char) : mkUrl body ≠ [] := by
  obtain ⟨t0, ht0⟩ := mkUrl_https body
  rw [ht0]
  exact List.cons_ne_nil _ _

lemma pyReplace_self (u repl : List Char) (hu : u ≠ []) :
    pyReplace u u repl = repl := by
  have h := @pyReplace_match u repl [] hu
  rw [List.append_nil] at h
  rw [h]
  exact List.append_nil repl

lemma mediaData_noColon (t : String) (idx count : Nat) :
    ':' ∉ ("media/" ++ baseName t idx count).data := by
  rw [String.data_append]
  exact noColon_append (by decide) (baseName_noColon t idx count)

lemma inlineData_noColon (t : String) (idx count : Nat) :
    ':' ∉ ("\n\n![image](media/" ++ baseName t idx count ++ ")").data := by
  rw [String.data_append, String.data_append]
  exact noColon_append (noColon_append (by decide) (baseName_noColon t idx count))
    (by decide)

/-- Claim C4 (amended): for a message text consisting of a single matchable
remote-image URL with colon-free text around it, the sanitizer rewrites the
URL in place to media/<slug>_<idx3>_<01>.png built from the title slug, the
zero-padded thread index and the occurrence counter 1, appends the inline
image reference line at the end of the text, and appends exactly one media
log entry of the form <filename> dash from quoted title.  The frozen claim
quantified this per match over all texts; it fails when the same URL occurs
twice, because str.replace rewrites every occurrence with the first
filename (see the counterexample). -/
theorem claim_C4 (title : String) (idx : Nat) (log : List String)
    (pre post body : List Char)
    (h1 : ':' ∉ pre) (h2 : ':' ∉ post) (h3 : body ≠ [])
    (h4 : body.all isUrlChar = true) :
    sanitize_and_log_images (String.mk (pre ++ (mkUrl body ++ post))) title idx log =
      (String.mk (pre ++ ("media/" ++ baseName title idx 1).data ++ post
        ++ ("\n\n![image](media/" ++ baseName title idx 1 ++ ")").data),
       log ++ [baseName title idx 1 ++ " — from '" ++ title ++ "'"]) := by
  obtain ⟨t0, ht0⟩ := mkUrl_append_https body post
  have hfind : pyFindallUrls (pre ++ (mkUrl body ++ post)) = [mkUrl body] := by
    rw [pyFindallUrls_gap h1 t0 ht0,
      pyFindallUrls_some (findMatchAt_mkUrl post h3 h4),
      pyFindallUrls_noColon h2]
  have hrepl : pyReplace (pre ++ (mkUrl body ++ post)) (mkUrl body)
      ("media/" ++ baseName title idx 1).data
      = pre ++ (("media/" ++ baseName title idx 1).data ++ post) := by
    rw [pyReplace_gap h1 t0 ht0, pyReplace_match (mkUrl_ne_nil body),
      pyReplace_noColon h2]
  have hsan : sanitize_and_log_images (String.mk (pre ++ (mkUrl body ++ post)))
      title idx log =
      (String.mk (sanitizeLoop title idx
        (pyFindallUrls (pre ++ (mkUrl body ++ post))) 1
        (pre ++ (mkUrl body ++ post)) log).1,
       (sanitizeLoop title idx (pyFindallUrls (pre ++ (mkUrl body ++ post))) 1
        (pre ++ (mkUrl body ++ post)) log).2) := rfl
  rw [hsan, hfind]
  have hloop : sanitizeLoop title idx [mkUrl body] 1 (pre ++ (mkUrl body ++ post)) log =
      (pyReplace (pre ++ (mkUrl body ++ post)) (mkUrl body)
          ("media/" ++ baseName title idx 1).data
        ++ ("\n\n![image](media/" ++ baseName title idx 1 ++ ")").data,
       log ++ [baseName title idx 1 ++ " — from '" ++ title ++ "'"]) := rfl
  rw [hloop, hrepl]
  simp [List.append_assoc]

/-- Witness for Claim C4 at a concrete instance: empty surrounding text,
body a, title t, index 0, empty incoming log. -/
theorem claim_C4_witness :
    (':' ∉ ([] : List Char)) ∧ (['a'] ≠ ([] : List Char)) ∧
    ['a'].all isUrlChar = true ∧
    sanitize_and_log_images (String.mk ([] ++ (mkUrl ['a'] ++ []))) "t" 0 [] =
      (String.mk ([] ++ ("media/" ++ baseName "t" 0 1).data ++ []
        ++ ("\n\n![image](media/" ++ baseName "t" 0 1 ++ ")").data),
       [] ++ [baseName "t" 0 1 ++ " — from '" ++ "t" ++ "'"]) :=
  ⟨by decide, by decide, by decide,
    claim_C4 "t" 0 [] [] [] ['a'] (by decide) (by decide) (by decide) (by decide)⟩

/-- Counterexample for Claim C4 as frozen: the same URL twice in one text.
The second match carries occurrence counter 2, but both in-place slots end
up holding the counter-1 filename, because content.replace(url, ...) at the
first iteration already rewrote every occurrence; the counter-2 filename
differs, so the second match is not rewritten in place to its own
media/<slug>_<idx3>_<count2>.png. -/
theorem claim_C4_counterexample :
    sanitize_and_log_images (String.mk (mkUrl ['a'] ++ ('\n' :: mkUrl ['a'])))
        "t" 0 [] =
      (String.mk (("media/" ++ baseName "t" 0 1).data
          ++ ('\n' :: ("media/" ++ baseName "t" 0 1).data)
          ++ ("\n\n![image](media/" ++ baseName "t" 0 1 ++ ")").data
          ++ ("\n\n![image](media/" ++ baseName "t" 0 2 ++ ")").data),
       [baseName "t" 0 1 ++ " — from 't'", baseName "t" 0 2 ++ " — from 't'"])
    ∧ baseName "t" 0 1 ≠ baseName "t" 0 2 := by
  constructor
  · rfl
  · decide

/-- Claim C10: when the same matchable URL occurs twice in one text,
separated by colon-free text, both in-place slots receive the filename of
the first match (counter 1), while the second match still appends its own
inline image line and its own media log entry carrying counter 2, and the
two filenames differ, so the appended filename and the in-text filename of
the second match disagree. -/
theorem claim_C10 (title : String) (idx : Nat) (log : List String)
    (body sep : List Char) (hsep : ':' ∉ sep) (h3 : body ≠ [])
    (h4 : body.all isUrlChar = true) :
    sanitize_and_log_images (String.mk (mkUrl body ++ (sep ++ mkUrl body)))
        title idx log =
      (String.mk (("media/" ++ baseName title idx 1).data
          ++ (sep ++ ("media/" ++ baseName title idx 1).data)
          ++ ("\n\n![image](media/" ++ baseName title idx 1 ++ ")").data
          ++ ("\n\n![image](media/" ++ baseName title idx 2 ++ ")").data),
       log ++ [baseName title idx 1 ++ " — from '" ++ title ++ "'",
               baseName title idx 2 ++ " — from '" ++ title ++ "'"])
    ∧ baseName title idx 1 ≠ baseName title idx 2 := by
  obtain ⟨tU, htU⟩ := mkUrl_https body
  have hne : baseName title idx 1 ≠ baseName title idx 2 := by
    intro h
    have hd := congrArg String.data h
    simp only [baseName, String.data_append, dataMk, List.append_assoc] at hd
    have hc1 := List.append_cancel_left hd
    have hc2 := List.append_cancel_left hc1
    have hc3 := List.append_cancel_left hc2
    have hc4 := List.append_cancel_left hc3
    exact absurd hc4 (by decide)
  refine ⟨?_, hne⟩
  have hm1 : findMatchAt (mkUrl body) = some (mkUrl body, []) := by
    have h := findMatchAt_mkUrl [] h3 h4
    rwa [List.append_nil] at h
  have hfind : pyFindallUrls (mkUrl body ++ (sep ++ mkUrl body)) =
      [mkUrl body, mkUrl body] := by
    rw [pyFindallUrls_some (findMatchAt_mkUrl (sep ++ mkUrl body) h3 h4),
      pyFindallUrls_gap hsep tU htU, pyFindallUrls_some hm1]
    rfl
  have hrepl1 : pyReplace (mkUrl body ++ (sep ++ mkUrl body)) (mkUrl body)
      ("media/" ++ baseName title idx 1).data
      = ("media/" ++ baseName title idx 1).data
        ++ (sep ++ ("media/" ++ baseName title idx 1).data) := by
    rw [pyReplace_match (mkUrl_ne_nil body), pyReplace_gap hsep tU htU,
      pyReplace_self (mkUrl body) _ (mkUrl_ne_nil body)]
  have hc1 : ':' ∉ (("media/" ++ baseName title idx 1).data
      ++ (sep ++ ("media/" ++ baseName title idx 1).data))
      ++ ("\n\n![image](media/" ++ baseName title idx 1 ++ ")").data :=
    noColon_append (noColon_append (mediaData_noColon title idx 1)
      (noColon_append hsep (mediaData_noColon title idx 1)))
      (inlineData_noColon title idx 1)
  have hsan : sanitize_and_log_images (String.mk (mkUrl body ++ (sep ++ mkUrl body)))
      title idx log =
      (String.mk (sanitizeLoop title idx
        (pyFindallUrls (mkUrl body ++ (sep ++ mkUrl body))) 1
        (mkUrl body ++ (sep ++ mkUrl body)) log).1,
       (sanitizeLoop title idx (pyFindallUrls (mkUrl body ++ (sep ++ mkUrl body))) 1
        (mkUrl body ++ (sep ++ mkUrl body)) log).2) := rfl
  rw [hsan, hfind]
  have hloop : sanitizeLoop title idx [mkUrl body, mkUrl body] 1
      (mkUrl body ++ (sep ++ mkUrl body)) log =
      (pyReplace
          (pyReplace (mkUrl body ++ (sep ++ mkUrl body)) (mkUrl body)
              ("media/" ++ baseName title idx 1).data
            ++ ("\n\n![image](media/" ++ baseName title idx 1 ++ ")").data)
          (mkUrl body) ("media/" ++ baseName title idx 2).data
        ++ ("\n\n![image](media/" ++ baseName title idx 2 ++ ")").data,
       (log ++ [baseName title idx 1 ++ " — from '" ++ title ++ "'"])
        ++ [baseName title idx 2 ++ " — from '" ++ title ++ "'"]) := rfl
  rw [hloop, hrepl1, pyReplace_noColon hc1]
  simp [List.append_assoc]

/-- Witness for Claim C10 at a concrete instance: body a, newline separator,
title t, index 0, empty incoming log. -/
theorem claim_C10_witness :
    (':' ∉ ['\n']) ∧ (['a'] ≠ ([] : List Char)) ∧ ['a'].all isUrlChar = true ∧
    (sanitize_and_log_images (String.mk (mkUrl ['a'] ++ (['\n'] ++ mkUrl ['a'])))
        "t" 0 [] =
      (String.mk (("media/" ++ baseName "t" 0 1).data
          ++ (['\n'] ++ ("media/" ++ baseName "t" 0 1).data)
          ++ ("\n\n![image](media/" ++ baseName "t" 0 1 ++ ")").data
          ++ ("\n\n![image](media/" ++ baseName "t" 0 2 ++ ")").data),
       [] ++ [baseName "t" 0 1 ++ " — from '" ++ "t" ++ "'",
              baseName "t" 0 2 ++ " — from '" ++ "t" ++ "'"])
      ∧ baseName "t" 0 1 ≠ baseName "t" 0 2) :=
  ⟨by decide, by decide, by decide,
    claim_C10 "t" 0 [] ['a'] ['\n'] (by decide) (by decide) (by decide)⟩

lemma LSP_true_iff (pre : List Char) : LSP true pre ↔ LineStartPre pre := by
  constructor
  · rintro (⟨h, _⟩ | ⟨q, hq⟩)
    · exact Or.inl h
    · exact Or.inr ⟨q, hq⟩
  · rintro (h | ⟨q, hq⟩)
    · exact Or.inl ⟨h, rfl⟩
    · exact Or.inr ⟨q, hq⟩

lemma LSP_cons (c : Char) {ls : Bool} {pre : List Char} (h : LSP (decide (c = '\n')) pre) :
    LSP ls (c :: pre) := by
  rcases h with ⟨hnil, hflag⟩ | ⟨q, hq⟩
  · subst hnil
    have hc : c = '\n' := of_decide_eq_true hflag
    subst hc
    exact Or.inr ⟨[], rfl⟩
  · subst hq
    exact Or.inr ⟨c :: q, rfl⟩

lemma LSP_cons_tail {ls : Bool} {c : Char} {pre : List Char} (h : LSP ls (c :: pre)) :
    LSP (decide (c = '\n')) pre := by
  rcases h with ⟨hnil, _⟩ | ⟨q, hq⟩
  · exact absurd hnil (List.cons_ne_nil c pre)
  · cases q with
    | nil =>
      have hc : c = '\n' ∧ pre = [] := by
        have := List.cons.injEq c pre '\n' [] ▸ hq
        exact ⟨(List.cons.inj hq).1, (List.cons.inj hq).2⟩
      exact Or.inl ⟨hc.2, by rw [hc.1]; decide⟩
    | cons q0 q2 =>
      have h1 := List.cons.inj (hq.trans (List.cons_append q0 q2 ['\n']))
      exact Or.inr ⟨q2, h1.2⟩

lemma subIn_mono {n1 n2 : List Char} (hp : n1 <+: n2) :
    ∀ {l : List Char}, subIn n2 l = true → subIn n1 l = true := by
  intro l
  induction l with
  | nil =>
    intro h
    cases hn : n2 with
    | nil =>
      have : n1 = [] := List.prefix_nil.mp (hn ▸ hp)
      rw [this]
      rfl
    | cons a t =>
      rw [hn] at h
      exact absurd h (by simp [subIn, List.isPrefixOf])
  | cons c t ih =>
    intro h
    simp only [subIn] at h ⊢
    rcases (Bool.or_eq_true (n2.isPrefixOf (c :: t)) (subIn n2 t)).mp h with h1 | h1
    · have hpp : n1 <+: c :: t := hp.trans (List.isPrefixOf_iff_prefix.mp h1)
      exact (Bool.or_eq_true _ _).mpr (Or.inl (List.isPrefixOf_iff_prefix.mpr hpp))
    · exact (Bool.or_eq_true _ _).mpr (Or.inr (ih h1))

lemma findClose_sound : ∀ {cs g : List Char}, findClose cs = some g →
    ∃ post, cs = g ++ closeDelim ++ post ∧
      ∀ g2 post2, cs = g2 ++ closeDelim ++ post2 → g.length ≤ g2.length := by
  intro cs
  induction cs with
  | nil => intro g h; simp [findClose] at h
  | cons c t ih =>
    intro g h
    simp only [findClose] at h
    by_cases hp : closeDelim.isPrefixOf (c :: t) = true
    · rw [if_pos hp] at h
      have hg : g = [] := (Option.some.inj h).symm
      subst hg
      obtain ⟨r, hr⟩ := List.isPrefixOf_iff_prefix.mp hp
      exact ⟨r, by rw [← hr]; rfl, fun g2 post2 _ => Nat.zero_le _⟩
    · rw [if_neg (by rw [Bool.not_eq_true] at hp ⊢; exact hp)] at h
      cases hft : findClose t with
      | none => rw [hft] at h; simp at h
      | some g0 =>
        rw [hft] at h
        have hg : g = c :: g0 := (Option.some.inj h).symm
        subst hg
        obtain ⟨post, hpost, hmin⟩ := ih hft
        refine ⟨post, by rw [List.cons_append, List.cons_append, ← hpost], ?_⟩
        intro g2 post2 heq
        cases g2 with
        | nil =>
          exfalso
          apply hp
          apply List.isPrefixOf_iff_prefix.mpr
          rw [heq, List.nil_append]
          exact List.prefix_append closeDelim post2
        | cons c2 g2t =>
          rw [List.cons_append, List.cons_append] at heq
          have ht := (List.cons.inj heq).2
          have := hmin g2t post2 ht
          simp only [List.length_cons]
          omega

lemma findClose_complete : ∀ (g : List Char) {cs : List Char} (post : List Char),
    cs = g ++ closeDelim ++ post → ∃ g2, findClose cs = some g2 := by
  intro g
  induction g with
  | nil =>
    intro cs post heq
    rw [List.nil_append] at heq
    subst heq
    have hcons : closeDelim ++ post = '\n' :: ("---".data ++ post) := rfl
    rw [hcons]
    simp only [findClose]
    rw [if_pos (List.isPrefixOf_iff_prefix.mpr ⟨post, hcons.symm⟩)]
    exact ⟨[], rfl⟩
  | cons c g0 ih =>
    intro cs post heq
    rw [List.cons_append, List.cons_append] at heq
    subst heq
    simp only [findClose]
    by_cases hp : closeDelim.isPrefixOf (c :: (g0 ++ closeDelim ++ post)) = true
    · exact ⟨[], by rw [if_pos (by exact hp)]⟩
    · rw [if_neg (by rw [Bool.not_eq_true] at hp ⊢; exact hp)]
      obtain ⟨g2, hg2⟩ := ih post rfl
      exact ⟨c :: g2, by rw [hg2]; rfl⟩

lemma scanHeader_sound : ∀ (cs : List Char) (ls : Bool) (g : List Char),
    scanHeader ls cs = some g →
    ∃ pre post, cs = pre ++ openDelim ++ g ++ closeDelim ++ post ∧ LSP ls pre ∧
      (∀ pre2 g2 post2, cs = pre2 ++ openDelim ++ g2 ++ closeDelim ++ post2 →
        LSP ls pre2 → pre.length ≤ pre2.length) ∧
      (∀ g2 post2, cs = pre ++ openDelim ++ g2 ++ closeDelim ++ post2 →
        g.length ≤ g2.length) := by
  intro cs
  induction cs with
  | nil => intro ls g h; simp [scanHeader] at h
  | cons c t ih =>
    intro ls g h
    simp only [scanHeader] at h
    by_cases hcond : ls = true ∧ openDelim.isPrefixOf (c :: t) = true
    · rw [if_pos hcond] at h
      obtain ⟨r, hr⟩ := List.isPrefixOf_iff_prefix.mp hcond.2
      have hdrop : (c :: t).drop 4 = r := by
        rw [← hr]
        have h4 : (4 : Nat) = openDelim.length := rfl
        rw [h4, List.drop_left]
      rw [hdrop] at h
      cases hfc : findClose r with
      | some g0 =>
        rw [hfc] at h
        have hg : g = g0 := (Option.some.inj h).symm
        subst hg
        obtain ⟨post, hpost, hmin⟩ := findClose_sound hfc
        refine ⟨[], post, ?_, Or.inl ⟨rfl, hcond.1⟩, ?_, ?_⟩
        · rw [← hr, hpost]
          simp [List.append_assoc]
        · intro pre2 g2 post2 _ _
          exact Nat.zero_le _
        · intro g2 post2 heq
          have h2 : openDelim ++ r = openDelim ++ (g2 ++ (closeDelim ++ post2)) := by
            rw [hr, heq]
            simp [List.append_assoc]
          have h3 : r = g2 ++ closeDelim ++ post2 := by
            rw [List.append_cancel_left h2]
            simp [List.append_assoc]
          exact hmin g2 post2 h3
      | none =>
        rw [hfc] at h
        have h2 : scanHeader (decide (c = '\n')) t = some g := h
        obtain ⟨pre1, post1, hdec1, hls1, hleft1, hmin1⟩ := ih (decide (c = '\n')) g h2
        refine ⟨c :: pre1, post1, ?_, LSP_cons c hls1, ?_, ?_⟩
        · rw [hdec1]
          simp [List.cons_append]
        · intro pre2 g2 post2 heq hls2
          rcases hls2 with ⟨hnil, _⟩ | ⟨q, hq⟩
          · subst hnil
            exfalso
            have h4 : openDelim ++ r = openDelim ++ (g2 ++ (closeDelim ++ post2)) := by
              rw [hr]
              rw [List.nil_append] at heq
              rw [heq]
              simp [List.append_assoc]
            have h5 : r = g2 ++ closeDelim ++ post2 := by
              rw [List.append_cancel_left h4]
              simp [List.append_assoc]
            obtain ⟨gx, hgx⟩ := findClose_complete g2 post2 h5
            rw [hfc] at hgx
            exact Option.noConfusion hgx
          · subst hq
            cases q with
            | nil =>
              simp only [List.nil_append, List.cons_append] at heq
              have hc := (List.cons.inj heq).1
              have ht := (List.cons.inj heq).2
              have hls0 : LSP (decide (c = '\n')) [] := Or.inl ⟨rfl, by rw [hc]; decide⟩
              have := hleft1 [] g2 post2 (by rw [ht]; simp) hls0
              simp only [List.length_cons, List.length_append, List.length_nil] at this ⊢
              omega
            | cons q0 qt =>
              simp only [List.cons_append] at heq
              have ht := (List.cons.inj heq).2
              have := hleft1 (qt ++ ['\n']) g2 post2 ht (Or.inr ⟨qt, rfl⟩)
              simp only [List.length_cons, List.length_append] at this ⊢
              omega
        · intro g2 post2 heq
          simp only [List.cons_append] at heq
          exact hmin1 g2 post2 (List.cons.inj heq).2
    · rw [if_neg hcond] at h
      obtain ⟨pre1, post1, hdec1, hls1, hleft1, hmin1⟩ := ih (decide (c = '\n')) g h
      refine ⟨c :: pre1, post1, ?_, LSP_cons c hls1, ?_, ?_⟩
      · rw [hdec1]
        simp [List.cons_append]
      · intro pre2 g2 post2 heq hls2
        rcases hls2 with ⟨hnil, hlst⟩ | ⟨q, hq⟩
        · subst hnil
          exfalso
          apply hcond
          refine ⟨hlst, List.isPrefixOf_iff_prefix.mpr ?_⟩
          rw [List.nil_append] at heq
          refine ⟨g2 ++ (closeDelim ++ post2), ?_⟩
          rw [heq]
          simp [List.append_assoc]
        · subst hq
          cases q with
          | nil =>
            simp only [List.nil_append, List.cons_append] at heq
            have hc := (List.cons.inj heq).1
            have ht := (List.cons.inj heq).2
            have hls0 : LSP (decide (c = '\n')) [] := Or.inl ⟨rfl, by rw [hc]; decide⟩
            have := hleft1 [] g2 post2 (by rw [ht]; simp) hls0
            simp only [List.length_cons, List.length_append, List.length_nil] at this ⊢
            omega
          | cons q0 qt =>
            simp only [List.cons_append] at heq
            have ht := (List.cons.inj heq).2
            have := hleft1 (qt ++ ['\n']) g2 post2 ht (Or.inr ⟨qt, rfl⟩)
            simp only [List.length_cons, List.length_append] at this ⊢
            omega
      · intro g2 post2 heq
        simp only [List.cons_append] at heq
        exact hmin1 g2 post2 (List.cons.inj heq).2

lemma scanHeader_complete : ∀ (pre : List Char) (ls : Bool) (g post : List Char),
    LSP ls pre →
    ∃ g2, scanHeader ls (pre ++ openDelim ++ g ++ closeDelim ++ post) = some g2 := by
  intro pre
  induction pre with
  | nil =>
    intro ls g post hls
    have hlst : ls = true := by
      rcases hls with ⟨_, h⟩ | ⟨q, hq⟩
      · exact h
      · simp at hq
    subst hlst
    have hcs : ([] : List Char) ++ openDelim ++ g ++ closeDelim ++ post
        = '-' :: ("--\n".data ++ (g ++ (closeDelim ++ post))) := by
      have hopen : openDelim = '-' :: "--\n".data := rfl
      rw [hopen]
      simp [List.cons_append, List.append_assoc]
    rw [hcs]
    simp only [scanHeader]
    have hpre : openDelim.isPrefixOf
        ('-' :: ("--\n".data ++ (g ++ (closeDelim ++ post)))) = true := by
      apply List.isPrefixOf_iff_prefix.mpr
      refine ⟨g ++ (closeDelim ++ post), ?_⟩
      rw [← hcs]
      simp [List.append_assoc]
    rw [if_pos ⟨by decide, hpre⟩]
    have hdrop : ('-' :: ("--\n".data ++ (g ++ (closeDelim ++ post)))).drop 4
        = g ++ (closeDelim ++ post) := rfl
    rw [hdrop]
    obtain ⟨g2, hg2⟩ := findClose_complete g post (List.append_assoc g closeDelim post).symm
    rw [hg2]
    exact ⟨g2, rfl⟩
  | cons c pre1 ih =>
    intro ls g post hls
    have hcs : (c :: pre1) ++ openDelim ++ g ++ closeDelim ++ post
        = c :: (pre1 ++ openDelim ++ g ++ closeDelim ++ post) := by
      simp [List.cons_append]
    rw [hcs]
    simp only [scanHeader]
    have hls1 : LSP (decide (c = '\n')) pre1 := LSP_cons_tail hls
    obtain ⟨g2, hg2⟩ := ih (decide (c = '\n')) g post hls1
    by_cases hcond : ls = true ∧ openDelim.isPrefixOf
        (c :: (pre1 ++ openDelim ++ g ++ closeDelim ++ post)) = true
    · rw [if_pos hcond]
      cases hfc : findClose ((c :: (pre1 ++ openDelim ++ g ++ closeDelim ++ post)).drop 4) with
      | some g0 => exact ⟨g0, rfl⟩
      | none => exact ⟨g2, hg2⟩
    · rw [if_neg hcond]
      exact ⟨g2, hg2⟩

lemma FirstHeaderGroup_unique {cs g1 g2 : List Char}
    (h1 : FirstHeaderGroup cs g1) (h2 : FirstHeaderGroup cs g2) : g1 = g2 := by
  obtain ⟨p1, ⟨post1, hd1⟩, hls1, hleft1, hmin1⟩ := h1
  obtain ⟨p2, ⟨post2, hd2⟩, hls2, hleft2, hmin2⟩ := h2
  have hlen : p1.length = p2.length :=
    Nat.le_antisymm (hleft1 p2 g2 ⟨post2, hd2⟩ hls2) (hleft2 p1 g1 ⟨post1, hd1⟩ hls1)
  have hp : p1 = p2 := by
    have e1 : cs.take p1.length = p1 := by
      rw [hd1]
      simp only [List.append_assoc]
      exact List.take_left p1 _
    have e2 : cs.take p2.length = p2 := by
      rw [hd2]
      simp only [List.append_assoc]
      exact List.take_left p2 _
    rw [← e1, ← e2, hlen]
  subst hp
  have hg : g1.length = g2.length :=
    Nat.le_antisymm (hmin1 g2 ⟨post2, hd2⟩) (hmin2 g1 ⟨post1, hd1⟩)
  have hcat : g1 ++ (closeDelim ++ post1) = g2 ++ (closeDelim ++ post2) := by
    have h3 := hd1.symm.trans hd2
    simp only [List.append_assoc] at h3
    exact List.append_cancel_left (List.append_cancel_left h3)
  have t1 : (g1 ++ (closeDelim ++ post1)).take g1.length = g1 := List.take_left g1 _
  have t2 : (g2 ++ (closeDelim ++ post2)).take g2.length = g2 := List.take_left g2 _
  rw [← t1, ← t2, hcat, hg]

/-- Claim C6 (amended): the skip check returns true iff the file exists, is
readable, its content contains a MULTILINE match of the header regex (an
opening three-hyphen line at the start of the content or right after any
newline, with the non-greedy group running to the first following newline
plus three hyphens), and the group of the first such match contains the
literal substring manual_edit: true.  Absent files, unreadable files (the
swallowed I/O failure path) and contents without such a match give false,
so the document is regenerated.  The frozen claim required the content to
begin with the header block, but the MULTILINE anchor lets the block start
after any newline, not only at the start (see the counterexample). -/
theorem claim_C6 (st : FileState) : should_skip_file st = true ↔
    ∃ s g, st = FileState.content s ∧ FirstHeaderGroup s.data g ∧
      subIn (MANUAL_EDIT_KEY ++ ": true").data g = true := by
  constructor
  · intro h
    cases st with
    | absent => simp [should_skip_file] at h
    | unreadable => simp [should_skip_file] at h
    | content s =>
      simp only [should_skip_file] at h
      cases hscan : scanHeader true s.data with
      | none =>
        rw [hscan] at h
        exact Bool.noConfusion h
      | some g =>
        rw [hscan] at h
        have h2 : (if subIn MANUAL_EDIT_KEY.data g = true
            then subIn (MANUAL_EDIT_KEY ++ ": true").data g else false) = true := h
        by_cases hk : subIn MANUAL_EDIT_KEY.data g = true
        · rw [if_pos hk] at h2
          refine ⟨s, g, rfl, ?_, h2⟩
          obtain ⟨pre, post, hdec, hls, hleft, hmin⟩ := scanHeader_sound s.data true g hscan
          refine ⟨pre, ⟨post, hdec⟩, (LSP_true_iff pre).mp hls, ?_, ?_⟩
          · intro pre2 g2 hocc hls2
            obtain ⟨post2, hp2⟩ := hocc
            exact hleft pre2 g2 post2 hp2 ((LSP_true_iff pre2).mpr hls2)
          · intro g2 hocc
            obtain ⟨post2, hp2⟩ := hocc
            exact hmin g2 post2 hp2
        · rw [if_neg hk] at h2
          exact Bool.noConfusion h2
  · rintro ⟨s, g, hst, hfhg, hsub⟩
    subst hst
    obtain ⟨pre, ⟨post, hdec⟩, hls, hleft, hmin⟩ := hfhg
    obtain ⟨g2, hg2⟩ := scanHeader_complete pre true g post ((LSP_true_iff pre).mpr hls)
    have hscan : scanHeader true s.data = some g2 := by rw [hdec]; exact hg2
    have hfhg2 : FirstHeaderGroup s.data g2 := by
      obtain ⟨pre3, post3, hdec3, hls3, hleft3, hmin3⟩ := scanHeader_sound s.data true g2 hscan
      refine ⟨pre3, ⟨post3, hdec3⟩, (LSP_true_iff pre3).mp hls3, ?_, ?_⟩
      · intro pre4 g4 hocc hls4
        obtain ⟨post4, hp4⟩ := hocc
        exact hleft3 pre4 g4 post4 hp4 ((LSP_true_iff pre4).mpr hls4)
      · intro g4 hocc
        obtain ⟨post4, hp4⟩ := hocc
        exact hmin3 g4 post4 hp4
    have hgg : g2 = g := FirstHeaderGroup_unique hfhg2
      ⟨pre, ⟨post, hdec⟩, hls, hleft, hmin⟩
    have hscan2 : scanHeader true s.data = some g := hgg ▸ hscan
    simp only [should_skip_file]
    rw [hscan2]
    have hk : subIn MANUAL_EDIT_KEY.data g = true :=
      subIn_mono ⟨": true".data, (String.data_append MANUAL_EDIT_KEY ": true").symm⟩ hsub
    show (if subIn MANUAL_EDIT_KEY.data g = true
        then subIn (MANUAL_EDIT_KEY ++ ": true").data g else false) = true
    rw [if_pos hk]
    exact hsub

/-- Counterexample for Claim C6 as frozen: a file whose content does not
begin with a header block is nevertheless skipped, because the MULTILINE
anchor also matches the three-hyphen line that follows the first newline;
so begins-with is not a necessary condition. -/
theorem claim_C6_counterexample :
    should_skip_file (FileState.content "junk\n---\nmanual_edit: true\n---\n") = true
    ∧ "---".data.isPrefixOf ("junk\n---\nmanual_edit: true\n---\n").data = false := by
  constructor
  · rfl
  · rfl

/-- Witness for Claim C6 at a concrete instance: a content whose header
block carries the manual edit marker is skipped, and the declarative first
match description holds of it. -/
theorem claim_C6_witness :
    should_skip_file (FileState.content "---\nmanual_edit: true\n---\n") = true ∧
    ∃ s g, FileState.content "---\nmanual_edit: true\n---\n" = FileState.content s ∧
      FirstHeaderGroup s.data g ∧
      subIn (MANUAL_EDIT_KEY ++ ": true").data g = true :=
  ⟨by rfl, (claim_C6 (FileState.content "---\nmanual_edit: true\n---\n")).mp (by rfl)⟩
